import Mathlib

/-!
Verification of the Zulip secret provisioner (`scripts/setup/generate_secrets.py`).

The script is embedded shallowly:

* the in-memory secrets mapping (`current_conf`, a Python dict used only through
  key-membership tests and fresh-key insertion) becomes an association list
  `List (String × String)` with first-match lookup;
* the straight-line sequence of guarded `add_secret` calls becomes a fold over
  an explicit table `secretSteps` whose rows record, in source order, the secret
  name, its applicability condition and its value generator;
* the ambient world (Django settings, environment variables, randomness,
  filesystem probes, the reachability of the redis server) becomes an explicit
  `Env` record, and the side effects of the redis branch are recorded in the
  run state;
* the secrets file becomes `Option String` (`none` = the file does not exist),
  and opening it for append becomes string concatenation.

Fallible operations (config parsing) return `Option`; `none` models a fatal
propagated exception.
-/

/-- First-match lookup in an association list; models key lookup / the
`name not in current_conf` membership test on the Python dict (insertions are
always fresh, so first-match and last-match semantics coincide). -/
def confLookup : List (String × String) → String → Option String
  | [], _ => none
  | p :: rest, k => if p.1 = k then some p.2 else confLookup rest k

/-- The Django settings values the script reads (`zproject.settings`). -/
structure Settings where
  MEMCACHED_LOCATION : String
  REDIS_HOST : String

/-- The ambient world of one run: configuration read from Django settings, the
`REMOTE_POSTGRES_PASSWORD` environment variable (`none` = unset), whether the
live redis `config_set` call succeeds (`false` = it raises
`redis.exceptions.ConnectionError`), which filesystem paths exist, and the
outputs of the random generators, indexed by call count. -/
structure Env where
  settings : Settings
  REMOTE_POSTGRES_PASSWORD : Option String
  redisConnOk : Bool
  redisConfExists : String → Bool
  random_token : Nat → String
  random_string64 : Nat → String
  django_secretkey : String
  uuid4 : String

/-- Python `"%s" % value` where `value` is `os.getenv(...)`: an unset variable
formats as the string `"None"`. -/
def pyOptStr : Option String → String
  | some s => s
  | none => "None"

/-- `AUTOGENERATED_SETTINGS` from the source: the always-needed 64-bit tokens. -/
def AUTOGENERATED_SETTINGS : List String :=
  ["avatar_salt", "rabbitmq_password", "shared_secret", "thumbor_key"]

/-- The applicability condition attached to a secret in the source: always, the
two development-only salts, or the two production-only passwords guarded by a
loopback check on the configured host. -/
inductive Applicability where
  | always
  | devOnly
  | prodMemcached
  | prodRedis
  deriving DecidableEq, Repr

/-- Evaluation of an applicability condition, mirroring the `if` guards of the
source: `development and ...` for the salts, `not development` plus
`settings.MEMCACHED_LOCATION == "127.0.0.1:11211"` resp.
`settings.REDIS_HOST == "127.0.0.1"` for the production passwords. -/
def applies (a : Applicability) (env : Env) (development : Bool) : Bool :=
  match a with
  | .always => true
  | .devOnly => development
  | .prodMemcached => !development && (env.settings.MEMCACHED_LOCATION == "127.0.0.1:11211")
  | .prodRedis => !development && (env.settings.REDIS_HOST == "127.0.0.1")

/-- Which generator the source calls for a secret's value. -/
inductive Gen where
  | token
  | str64
  | djangoKey
  | uuidGen
  | envPostgres
  deriving DecidableEq, Repr

/-- One guarded `add_secret` site of the source, in source order. -/
structure Step where
  name : String
  app : Applicability
  gen : Gen
  deriving DecidableEq, Repr

/-- The mutable state of one `generate_secrets` run: `current_conf`, the
pending `lines`, the two generator call counters, and the observable side
effects of the redis branch (`requirepass` append target, result of the live
`config_set` call) and of the secret-key branch (the in-process
`settings.SECRET_KEY` patch). -/
structure MState where
  conf : List (String × String)
  lines : List String
  nTok : Nat
  nStr : Nat
  redisConfWrite : Option String := none
  redisSetOk : Option Bool := none
  secretKeyPatched : Option String := none
  deriving DecidableEq, Repr

/-- `need_secret` from the source: `name not in current_conf`. -/
def need_secret (conf : List (String × String)) (name : String) : Bool :=
  (confLookup conf name).isNone

/-- The formatted config line `"%s = %s\n" % (name, value)`. -/
def fmtLine (p : String × String) : String :=
  p.1 ++ " = " ++ p.2 ++ "\n"

/-- `add_secret` from the source: append the formatted line to `lines` and
record the pair in `current_conf`. -/
def add_secret (s : MState) (name value : String) : MState :=
  { s with lines := s.lines ++ [fmtLine (name, value)],
           conf := s.conf ++ [(name, value)] }

/-- Produce the value a step's generator yields and advance the matching call
counter. -/
def genValue (env : Env) (s : MState) (g : Gen) : String × MState :=
  match g with
  | .token => (env.random_token s.nTok, { s with nTok := s.nTok + 1 })
  | .str64 => (env.random_string64 s.nStr, { s with nStr := s.nStr + 1 })
  | .djangoKey => (env.django_secretkey, s)
  | .uuidGen => (env.uuid4, s)
  | .envPostgres => (pyOptStr env.REMOTE_POSTGRES_PASSWORD, s)

/-- The two candidate redis config paths the source probes (the first contains
the source's `zuli-redis.conf` typo), in order; the loop `break`s at the first
existing one. -/
def REDIS_CONF_CANDIDATES : List String :=
  ["/etc/redis/zuli-redis.conf", "/etc/redis/zulip-redis.conf"]

/-- The first existing candidate redis config file, if any (the target of the
best-effort `requirepass` append). -/
def redisConfTarget (env : Env) : Option String :=
  REDIS_CONF_CANDIDATES.find? env.redisConfExists

/-- Record the side effects the source performs while generating a value: the
redis branch appends `requirepass` to the first existing candidate config file
and issues the live `config_set` call (whose `ConnectionError` is caught and
swallowed — the run continues either way, so only the outcome is recorded); the
secret-key branch patches `settings.SECRET_KEY` in-process. -/
def applyEffects (env : Env) (s : MState) (st : Step) (v : String) : MState :=
  let s1 : MState :=
    match st.app with
    | .prodRedis => { s with redisConfWrite := redisConfTarget env,
                             redisSetOk := some env.redisConnOk }
    | _ => s
  match st.gen with
  | .djangoKey => { s1 with secretKeyPatched := some v }
  | _ => s1

/-- Execute one guarded `add_secret` site: if the secret is absent and its
applicability condition holds, generate the value, perform the branch's side
effects, and add the secret; otherwise do nothing. -/
def runStep (env : Env) (development : Bool) (s : MState) (st : Step) : MState :=
  if need_secret s.conf st.name && applies st.app env development then
    add_secret (applyEffects env (genValue env s st.gen).2 st (genValue env s st.gen).1)
      st.name (genValue env s st.gen).1
  else s

/-- All guarded `add_secret` sites of `generate_secrets`, in source order:
the four `AUTOGENERATED_SETTINGS` tokens, the two development-only salts,
`secret_key`, `camo_key`, the two production-only service passwords,
the two push-notification identifiers, and `postgres_password`. -/
def secretSteps : List Step :=
  (AUTOGENERATED_SETTINGS.map (fun n => ⟨n, .always, .token⟩)) ++
  [ ⟨"initial_password_salt", .devOnly, .token⟩,
    ⟨"local_database_password", .devOnly, .token⟩,
    ⟨"secret_key", .always, .djangoKey⟩,
    ⟨"camo_key", .always, .str64⟩,
    ⟨"memcached_password", .prodMemcached, .token⟩,
    ⟨"redis_password", .prodRedis, .token⟩,
    ⟨"zulip_org_key", .always, .str64⟩,
    ⟨"zulip_org_id", .always, .uuidGen⟩,
    ⟨"postgres_password", .always, .envPostgres⟩ ]

/-- The initial run state: `lines = ['[secrets]\n']` exactly when the parsed
mapping is empty (`len(current_conf) == 0`). -/
def initState (conf : List (String × String)) : MState :=
  { conf := conf,
    lines := if conf.length = 0 then ["[secrets]\n"] else [],
    nTok := 0, nStr := 0 }

/-- The in-memory part of `generate_secrets`: starting from the parsed
`current_conf`, execute every guarded `add_secret` site in source order. -/
def mergeSecrets (env : Env) (development : Bool)
    (conf : List (String × String)) : MState :=
  List.foldl (runStep env development) (initState conf) secretSteps

/-! ### The config parser (`get_old_conf`)

The loader itself (`get_old_conf`) is source code; the parser it calls is
Python's standard-library `configparser.RawConfigParser`, which is not part of
this repository, so it is modelled from the spec. -/

/-- Whitespace test used for Python-style `strip()` of keys, values and lines. -/
def wsb (c : Char) : Bool := c.isWhitespace

/-- Drop leading whitespace. -/
def ltrim (l : List Char) : List Char := l.dropWhile wsb

/-- Drop trailing whitespace. -/
def rtrim (l : List Char) : List Char := (l.reverse.dropWhile wsb).reverse

/-- Python `str.strip()`: drop whitespace from both ends. -/
def trimChars (l : List Char) : List Char := ltrim (rtrim l)

/-- Split a character list at every occurrence of a separator (the separator is
consumed; `n + 1` separators yield `n + 2` chunks). -/
def splitOnChar (sep : Char) : List Char → List (List Char)
  | [] => [[]]
  | c :: rest =>
    if c = sep then [] :: splitOnChar sep rest
    else
      match splitOnChar sep rest with
      | [] => [[c]]
      | l :: ls => (c :: l) :: ls

/-- Parser state: whether the `[secrets]` section header has been seen, and the
key/value pairs collected so far. -/
structure ParserSt where
  seenHeader : Bool
  items : List (String × String)
  deriving DecidableEq, Repr

/-- Modelled from the spec: how `configparser.RawConfigParser` (standard
library, not part of this repository) treats one line of the single-section
INI-like secrets file. Blank lines and `#`/`;` comment lines are skipped; the
line `[secrets]` opens the single documented section (a second occurrence is a
duplicate-section error under strict parsing); any other `[...]` header is
outside the documented single-section format and treated as a fatal parse
error, as is a key/value line before the header, a duplicate key, or a line
that is neither blank, comment, header nor `name = value`. Keys and values are
stripped of surrounding whitespace. `none` models the propagated exception. -/
def parseLine (st : Option ParserSt) (chunk : List Char) : Option ParserSt :=
  match st with
  | none => none
  | some ps =>
    let t := trimChars chunk
    match t with
    | [] => some ps
    | c :: _ =>
      if c = '#' ∨ c = ';' then some ps
      else if t = "[secrets]".data then
        if ps.seenHeader then none else some { ps with seenHeader := true }
      else if c = '[' then none
      else if t.contains '=' then
        if ps.seenHeader then
          let key := trimChars (t.takeWhile (fun d => d ≠ '='))
          let val := trimChars ((t.dropWhile (fun d => d ≠ '=')).drop 1)
          if key = [] then none
          else if (confLookup ps.items (String.mk key)).isSome then none
          else some { ps with items := ps.items ++ [(String.mk key, String.mk val)] }
        else none
      else none

/-- Modelled from the spec: parsing a whole secrets file and returning the
key/value pairs of the single `secrets` section; a file without that section is
a fatal error (`configparser` raises `NoSectionError` from
`secrets_file.items("secrets")`). -/
def parseSecretsFile (c : String) : Option (List (String × String)) :=
  match (splitOnChar '\n' c.data).foldl parseLine (some ⟨false, []⟩) with
  | none => none
  | some ps => if ps.seenHeader then some ps.items else none

/-- `get_old_conf` from the source: an absent file (`none`) or a file of size
zero yields the empty mapping; otherwise the file is parsed and the `secrets`
section returned, any parse failure propagating as fatal (`none`). -/
def get_old_conf (file : Option String) : Option (List (String × String)) :=
  match file with
  | none => some []
  | some c => if c = "" then some [] else parseSecretsFile c

/-! ### The file-level run (`generate_secrets`) -/

/-- `OUTPUT_SETTINGS_FILENAME` as selected by the mode flag. -/
def OUTPUT_SETTINGS_FILENAME (development : Bool) : String :=
  if development then "zproject/dev-secrets.conf" else "/etc/zulip/zulip-secrets.conf"

/-- The text content of a possibly-absent file (`open(..., 'a')` creates an
absent file, so appending treats `none` as empty content). -/
def contentOf : Option String → String
  | none => ""
  | some c => c

/-- The observable outcome of one `generate_secrets` run: the secrets file
afterwards, the final in-memory state, whether the file was written, and the
message printed. -/
structure RunResult where
  file : Option String
  state : MState
  wrote : Bool
  message : String
  deriving DecidableEq, Repr

/-- `generate_secrets` from the source: load the old mapping (a parse failure
propagates, `none`); run every guarded `add_secret` site; if no lines are
pending, report "No new secrets to generate" without touching the file;
otherwise append a defensive leading newline plus every pending line and report
success with the output path. -/
def generate_secrets (env : Env) (development : Bool)
    (file : Option String) : Option RunResult :=
  match get_old_conf file with
  | none => none
  | some conf =>
    let st := mergeSecrets env development conf
    if st.lines.length = 0 then
      some ⟨file, st, false, "generate_secrets: No new secrets to generate."⟩
    else
      some ⟨some (contentOf file ++ "\n" ++ String.join st.lines), st, true,
            "Generated new secrets in " ++ OUTPUT_SETTINGS_FILENAME development ++ "."⟩

/-! ### Value generators (C9)

The generators called by the script live outside `src/` (`zerver.lib.utils`,
`django.utils.crypto`, Python's `uuid`), so they are modelled from the spec,
parameterised by an explicit randomness source. -/

/-- The sixteen lowercase hexadecimal digits. -/
def hexChars : List Char := "0123456789abcdef".data

/-- The hexadecimal digit of `n % 16`. -/
def hexDigit (n : Nat) : Char := hexChars.getD (n % 16) '0'

/-- The two hexadecimal digits of one byte. -/
def byteHex (b : Nat) : List Char := [hexDigit (b / 16), hexDigit (b % 16)]

/-- Modelled from the spec: the cryptographically secure token generator
(`zerver.lib.utils.generate_random_token`, not under `src/`), which produces a
high-entropy token of the requested length by hex-encoding `length / 2` random
bytes; the "expected character class" is thus the lowercase hexadecimal
digits. `urandom` supplies the random bytes. -/
def generate_random_token (length : Nat) (urandom : Nat → Nat) : String :=
  String.mk (((List.range (length / 2)).map (fun i => byteHex (urandom i % 256))).flatten)

/-- `random_token` from the source: a 64-character token. -/
def random_token (urandom : Nat → Nat) : String :=
  generate_random_token 64 urandom

/-- Modelled from the spec: the secure-random string provider
(`django.utils.crypto.get_random_string`, an external collaborator): `length`
independent draws from `allowed_chars`, `pick` supplying the random choices. -/
def get_random_string (length : Nat) (allowed_chars : List Char)
    (pick : Nat → Nat) : String :=
  String.mk ((List.range length).map
    (fun i => allowed_chars.getD (pick i % allowed_chars.length) '0'))

/-- The restricted alphabet of `generate_django_secretkey` (verbatim from the
source: lowercase letters, digits and the fixed symbol set). -/
def secret_chars : List Char :=
  "abcdefghijklmnopqrstuvwxyz0123456789!@#$%^&*(-_=+)".data

/-- `generate_django_secretkey` from the source: a 50-character
`get_random_string` draw from `secret_chars` (Django's `startproject`
convention). -/
def generate_django_secretkey (pick : Nat → Nat) : String :=
  get_random_string 50 secret_chars pick

/-- Modelled from the spec: `str(uuid.uuid4())` (Python standard library): 32
random hexadecimal nibbles in 8-4-4-4-12 groups, with the version nibble fixed
to `4` and the variant nibble drawn from `8`–`b`. `nib` supplies the random
nibbles. -/
def uuid4_model (nib : Nat → Nat) : String :=
  let grp : Nat → Nat → List Char :=
    fun s l => (List.range l).map (fun j => hexDigit (nib (s + j)))
  String.mk (grp 0 8 ++ '-' :: (grp 8 4 ++ '-' :: ('4' :: grp 13 3 ++
    '-' :: (hexDigit (8 + nib 16 % 4) :: grp 17 3 ++ '-' :: grp 20 12))))

/-- Canonical-form UUID check: five hyphen-separated groups of lengths
8-4-4-4-12, all other characters lowercase hexadecimal digits (the format
accepted by `uuid.UUID`). -/
def isValidUUID (s : String) : Bool :=
  let parts := splitOnChar '-' s.data
  (parts.map List.length = [8, 4, 4, 4, 12] : Bool) &&
    parts.all (fun p => p.all (fun c => hexChars.contains c))

/-! ### Well-formedness predicates and fixed example environment -/

/-- A string free of newlines (true of every value the real generators can
produce: hex tokens, `secret_chars` draws, UUIDs). -/
def noNlB (s : String) : Bool := s.data.all (fun c => c ≠ '\n')

/-- Every value the run can hand to `add_secret` is newline-free: the
generator streams, the Django secret key, the UUID, and the formatted
`REMOTE_POSTGRES_PASSWORD` (including the `"None"` fallback). -/
def EnvWF (env : Env) : Prop :=
  (∀ i, noNlB (env.random_token i)) ∧
  (∀ i, noNlB (env.random_string64 i)) ∧
  noNlB env.django_secretkey ∧
  noNlB env.uuid4 ∧
  (∀ s, env.REMOTE_POSTGRES_PASSWORD = some s → noNlB s)

/-- Two runs agree on the Django settings the guards read. -/
def sameSettings (e1 e2 : Env) : Prop :=
  e1.settings.MEMCACHED_LOCATION = e2.settings.MEMCACHED_LOCATION ∧
  e1.settings.REDIS_HOST = e2.settings.REDIS_HOST

/-- A secret name as written by the tool: nonempty, made of non-whitespace
characters other than `=`, and not opening a comment or section header. All
thirteen names in `secretSteps` satisfy this. -/
def goodNameS (n : String) : Bool :=
  match n.data with
  | [] => false
  | c :: _ => c ≠ '[' && c ≠ '#' && c ≠ ';' &&
      n.data.all (fun d => !wsb d && d ≠ '=')

/-- A starting secrets file the spec's format admits: absent, empty, or parsing
to a mapping with at least one key. (A non-empty file whose `secrets` section
has no keys is the case the idempotence claim breaks on.) -/
def okStart (f0 : Option String) : Prop :=
  f0 = none ∨ f0 = some "" ∨ ∃ conf, get_old_conf f0 = some conf ∧ conf ≠ []

/-- A fixed concrete environment used by the witnesses: loopback hosts, an
unreachable redis server, no redis config files, constant generator streams. -/
def envA : Env :=
  { settings := { MEMCACHED_LOCATION := "127.0.0.1:11211", REDIS_HOST := "127.0.0.1" },
    REMOTE_POSTGRES_PASSWORD := some "pgpass",
    redisConnOk := false,
    redisConfExists := fun _ => false,
    random_token := fun _ => "tok",
    random_string64 := fun _ => "str",
    django_secretkey := "djkey",
    uuid4 := "123e4567-e89b-42d3-a456-426614174000" }

/-- The secrets file produced by a first development-mode `envA` run against
the starting file `"[secrets]\n"` (non-empty, but with an empty `secrets`
section). -/
def c1file1 : Option String :=
  match generate_secrets envA true (some "[secrets]\n") with
  | some r => r.file
  | none => none

/-- The secrets file produced by a first development-mode `envA` run against
an absent file. -/
def c1wfile : Option String :=
  match generate_secrets envA true none with
  | some r => r.file
  | none => none

/-- Provenance of a value a given generator kind can hand to `add_secret`. -/
def envValueFor (env : Env) (g : Gen) (v : String) : Prop :=
  match g with
  | .token => ∃ i, v = env.random_token i
  | .str64 => ∃ i, v = env.random_string64 i
  | .djangoKey => v = env.django_secretkey
  | .uuidGen => v = env.uuid4
  | .envPostgres => v = pyOptStr env.REMOTE_POSTGRES_PASSWORD

/-- The characters of one generated `name = value` line, without its
terminating newline: the chunk the line splitter hands to the parser. -/
def kvChunk (p : String × String) : List Char :=
  (p.1 ++ " = " ++ p.2).data

/-- What the parser stores for a freshly appended pair: the key verbatim, the
value stripped of surrounding whitespace. -/
def trimPair (p : String × String) : String × String :=
  (p.1, String.mk (trimChars p.2.data))

/-! ## Helper lemmas: lookup, state projections, the step fold -/

theorem confLookup_append (l1 l2 : List (String × String)) (k : String) :
    confLookup (l1 ++ l2) k =
      (match confLookup l1 k with
       | some v => some v
       | none => confLookup l2 k) := by
  induction l1 with
  | nil => rfl
  | cons p rest ih =>
    by_cases h : p.1 = k
    · simp [confLookup, h]
    · simp [confLookup, h, ih]

theorem confLookup_append_left {l1 : List (String × String)} {k : String} {v : String}
    (l2 : List (String × String)) (h : confLookup l1 k = some v) :
    confLookup (l1 ++ l2) k = some v := by
  rw [confLookup_append, h]

theorem confLookup_append_right {l1 : List (String × String)} {k : String}
    (l2 : List (String × String)) (h : confLookup l1 k = none) :
    confLookup (l1 ++ l2) k = confLookup l2 k := by
  rw [confLookup_append, h]

theorem confLookup_append_eq_none_iff {l1 l2 : List (String × String)} {k : String} :
    confLookup (l1 ++ l2) k = none ↔
      confLookup l1 k = none ∧ confLookup l2 k = none := by
  rw [confLookup_append]
  cases h : confLookup l1 k <;> simp

theorem confLookup_eq_none_iff {l : List (String × String)} {k : String} :
    confLookup l k = none ↔ ∀ p ∈ l, p.1 ≠ k := by
  induction l with
  | nil => simp [confLookup]
  | cons p rest ih =>
    by_cases h : p.1 = k
    · simp [confLookup, h]
    · simp [confLookup, h, ih]

theorem confLookup_isSome_congr {l1 l2 : List (String × String)}
    (h : l1.map Prod.fst = l2.map Prod.fst) (k : String) :
    (confLookup l1 k).isSome = (confLookup l2 k).isSome := by
  induction l1 generalizing l2 with
  | nil =>
    cases l2 with
    | nil => rfl
    | cons q t => simp at h
  | cons p rest ih =>
    cases l2 with
    | nil => simp at h
    | cons q t =>
      simp only [List.map_cons, List.cons.injEq] at h
      by_cases hk : p.1 = k
      · simp [confLookup, hk, h.1 ▸ hk]
      · have hq : ¬ q.1 = k := by rw [← h.1]; exact hk
        simp [confLookup, hk, hq, ih h.2]

theorem genValue_snd_conf (env : Env) (s : MState) (g : Gen) :
    ((genValue env s g).2).conf = s.conf := by cases g <;> rfl

theorem genValue_snd_lines (env : Env) (s : MState) (g : Gen) :
    ((genValue env s g).2).lines = s.lines := by cases g <;> rfl

theorem genValue_snd_redisSetOk (env : Env) (s : MState) (g : Gen) :
    ((genValue env s g).2).redisSetOk = s.redisSetOk := by cases g <;> rfl

theorem genValue_fst_matches (env : Env) (s : MState) (g : Gen) :
    envValueFor env g (genValue env s g).1 := by
  cases g with
  | token => exact ⟨s.nTok, rfl⟩
  | str64 => exact ⟨s.nStr, rfl⟩
  | djangoKey => rfl
  | uuidGen => rfl
  | envPostgres => rfl

theorem applyEffects_conf (env : Env) (s : MState) (st : Step) (v : String) :
    (applyEffects env s st v).conf = s.conf := by
  obtain ⟨n, a, g⟩ := st; cases a <;> cases g <;> rfl

theorem applyEffects_lines (env : Env) (s : MState) (st : Step) (v : String) :
    (applyEffects env s st v).lines = s.lines := by
  obtain ⟨n, a, g⟩ := st; cases a <;> cases g <;> rfl

theorem applyEffects_redisSetOk_of_ne (env : Env) (s : MState) (st : Step) (v : String)
    (h : st.app ≠ .prodRedis) :
    (applyEffects env s st v).redisSetOk = s.redisSetOk := by
  obtain ⟨n, a, g⟩ := st
  cases a <;> cases g <;> first | rfl | exact absurd rfl h

theorem applyEffects_redisSetOk_of_redis (env : Env) (s : MState) (st : Step) (v : String)
    (h : st.app = .prodRedis) :
    (applyEffects env s st v).redisSetOk = some env.redisConnOk := by
  obtain ⟨n, a, g⟩ := st
  cases a <;> cases g <;> first | rfl | simp at h

theorem add_secret_conf (s : MState) (n v : String) :
    (add_secret s n v).conf = s.conf ++ [(n, v)] := rfl

theorem add_secret_lines (s : MState) (n v : String) :
    (add_secret s n v).lines = s.lines ++ [fmtLine (n, v)] := rfl

theorem add_secret_redisSetOk (s : MState) (n v : String) :
    (add_secret s n v).redisSetOk = s.redisSetOk := rfl

theorem runStep_skip {env : Env} {dev : Bool} {s : MState} {st : Step}
    (h : (need_secret s.conf st.name && applies st.app env dev) = false) :
    runStep env dev s st = s := by
  simp [runStep, h]

theorem runStep_fire {env : Env} {dev : Bool} {s : MState} {st : Step}
    (h : (need_secret s.conf st.name && applies st.app env dev) = true) :
    runStep env dev s st =
      add_secret (applyEffects env (genValue env s st.gen).2 st (genValue env s st.gen).1)
        st.name (genValue env s st.gen).1 := by
  simp [runStep, h]

theorem runStep_conf_of_fire {env : Env} {dev : Bool} {s : MState} {st : Step}
    (h : (need_secret s.conf st.name && applies st.app env dev) = true) :
    (runStep env dev s st).conf = s.conf ++ [(st.name, (genValue env s st.gen).1)] := by
  rw [runStep_fire h, add_secret_conf, applyEffects_conf, genValue_snd_conf]

theorem runStep_lines_of_fire {env : Env} {dev : Bool} {s : MState} {st : Step}
    (h : (need_secret s.conf st.name && applies st.app env dev) = true) :
    (runStep env dev s st).lines =
      s.lines ++ [fmtLine (st.name, (genValue env s st.gen).1)] := by
  rw [runStep_fire h, add_secret_lines, applyEffects_lines, genValue_snd_lines]

/-- Structure of one pass over a step list: the run only appends — the final
mapping is the initial one plus a block of freshly added pairs, the pending
lines grow by exactly the formatted versions of those pairs, the added names
are pairwise distinct and absent from the initial mapping, and every added pair
comes from an applicable step of the list with a value its generator yields. -/
theorem runSteps_spec (env : Env) (dev : Bool) (steps : List Step) (s : MState) :
    ∃ added : List (String × String),
      (List.foldl (runStep env dev) s steps).conf = s.conf ++ added ∧
      (List.foldl (runStep env dev) s steps).lines = s.lines ++ added.map fmtLine ∧
      (∀ p ∈ added, confLookup s.conf p.1 = none) ∧
      (added.map Prod.fst).Nodup ∧
      (∀ p ∈ added, ∃ st ∈ steps, st.name = p.1 ∧
        applies st.app env dev = true ∧ envValueFor env st.gen p.2) := by
  induction steps generalizing s with
  | nil => exact ⟨[], by simp, by simp, by simp, by simp, by simp⟩
  | cons st rest ih =>
    rw [List.foldl_cons]
    by_cases h : (need_secret s.conf st.name && applies st.app env dev) = true
    · obtain ⟨added, hconf, hlines, hfresh, hnd, hsrc⟩ := ih (runStep env dev s st)
      have hneed : confLookup s.conf st.name = none := by
        have := (Bool.and_eq_true _ _).mp h |>.1
        simpa [need_secret, Option.isNone_iff_eq_none] using this
      have happ : applies st.app env dev = true := ((Bool.and_eq_true _ _).mp h).2
      refine ⟨(st.name, (genValue env s st.gen).1) :: added, ?_, ?_, ?_, ?_, ?_⟩
      · rw [hconf, runStep_conf_of_fire h, List.append_assoc]; rfl
      · rw [hlines, runStep_lines_of_fire h, List.append_assoc]; rfl
      · intro p hp
        rcases List.mem_cons.mp hp with hp | hp
        · rw [hp]; exact hneed
        · have := hfresh p hp
          rw [runStep_conf_of_fire h] at this
          exact (confLookup_append_eq_none_iff.mp this).1
      · refine List.nodup_cons.mpr ⟨?_, hnd⟩
        intro hmem
        obtain ⟨p, hp, hfst⟩ := List.mem_map.mp hmem
        have := hfresh p hp
        rw [runStep_conf_of_fire h] at this
        have h2 := (confLookup_append_eq_none_iff.mp this).2
        rw [hfst] at h2
        simp [confLookup] at h2
      · intro p hp
        rcases List.mem_cons.mp hp with hp | hp
        · rw [hp]
          exact ⟨st, List.mem_cons_self _ _, rfl, happ, genValue_fst_matches env s st.gen⟩
        · obtain ⟨st', hst', hn, ha, hv⟩ := hsrc p hp
          exact ⟨st', List.mem_cons_of_mem _ hst', hn, ha, hv⟩
    · rw [runStep_skip (Bool.not_eq_true _ ▸ h : _ = false)]
      obtain ⟨added, hconf, hlines, hfresh, hnd, hsrc⟩ := ih s
      refine ⟨added, hconf, hlines, hfresh, hnd, ?_⟩
      intro p hp
      obtain ⟨st', hst', hn, ha, hv⟩ := hsrc p hp
      exact ⟨st', List.mem_cons_of_mem _ hst', hn, ha, hv⟩

/-- A name is absent after the pass exactly when it was absent before and no
applicable step of the list bears it. -/
theorem runSteps_lookup_none (env : Env) (dev : Bool) (steps : List Step)
    (s : MState) (name : String) :
    confLookup (List.foldl (runStep env dev) s steps).conf name = none ↔
      (confLookup s.conf name = none ∧
        ∀ st ∈ steps, st.name = name → applies st.app env dev = false) := by
  induction steps generalizing s with
  | nil => simp
  | cons st rest ih =>
    rw [List.foldl_cons]
    by_cases h : (need_secret s.conf st.name && applies st.app env dev) = true
    · have hneed : confLookup s.conf st.name = none := by
        have := (Bool.and_eq_true _ _).mp h |>.1
        simpa [need_secret, Option.isNone_iff_eq_none] using this
      have happ : applies st.app env dev = true := ((Bool.and_eq_true _ _).mp h).2
      constructor
      · intro hfin
        have := (ih (runStep env dev s st)).mp hfin
        obtain ⟨h1, h2⟩ := this
        rw [runStep_conf_of_fire h] at h1
        obtain ⟨h1a, h1b⟩ := confLookup_append_eq_none_iff.mp h1
        have hne : st.name ≠ name := by
          intro he
          rw [he] at h1b
          simp [confLookup] at h1b
        refine ⟨h1a, ?_⟩
        intro st' hst' hn
        rcases List.mem_cons.mp hst' with hst' | hst'
        · exact absurd (hst' ▸ hn) hne
        · exact h2 st' hst' hn
      · intro ⟨h1, h2⟩
        apply (ih (runStep env dev s st)).mpr
        have hne : st.name ≠ name := by
          intro he
          have := h2 st (List.mem_cons_self _ _) he
          rw [this] at happ
          exact Bool.false_ne_true happ
        constructor
        · rw [runStep_conf_of_fire h]
          apply confLookup_append_eq_none_iff.mpr
          exact ⟨h1, by simp [confLookup, hne]⟩
        · intro st' hst' hn
          exact h2 st' (List.mem_cons_of_mem _ hst') hn
    · have hc : (need_secret s.conf st.name && applies st.app env dev) = false :=
        Bool.not_eq_true _ ▸ h
      rw [runStep_skip hc]
      rw [ih s]
      constructor
      · intro ⟨h1, h2⟩
        refine ⟨h1, ?_⟩
        intro st' hst' hn
        rcases List.mem_cons.mp hst' with hst' | hst'
        · subst hst'
          have hneed : need_secret s.conf st'.name = true := by
            rw [hn]; simp [need_secret, h1]
          rw [hneed, Bool.true_and] at hc
          exact hc
        · exact h2 st' hst' hn
      · intro ⟨h1, h2⟩
        exact ⟨h1, fun st' hst' hn => h2 st' (List.mem_cons_of_mem _ hst') hn⟩

/-- If every applicable step's secret is already present, the pass is the
identity on the state. -/
theorem runSteps_noop (env : Env) (dev : Bool) (steps : List Step) (s : MState)
    (h : ∀ st ∈ steps, applies st.app env dev = true →
      (confLookup s.conf st.name).isSome = true) :
    List.foldl (runStep env dev) s steps = s := by
  induction steps with
  | nil => rfl
  | cons st rest ih =>
    rw [List.foldl_cons]
    have hskip : (need_secret s.conf st.name && applies st.app env dev) = false := by
      cases ha : applies st.app env dev with
      | false => simp [ha]
      | true =>
        have hsome := h st (List.mem_cons_self _ _) ha
        have hns : need_secret s.conf st.name = false := by
          cases hcl : confLookup s.conf st.name with
          | none => rw [hcl] at hsome; simp at hsome
          | some v => simp [need_secret, hcl]
        simp [hns]
    rw [runStep_skip hskip]
    exact ih (fun st' hst' => h st' (List.mem_cons_of_mem _ hst'))

/-- Applicability only reads the two Django settings the guards mention. -/
theorem applies_congr {e1 e2 : Env} (h : sameSettings e1 e2)
    (a : Applicability) (dev : Bool) :
    applies a e1 dev = applies a e2 dev := by
  obtain ⟨h1, h2⟩ := h
  cases a <;> simp [applies, h1, h2]

/-- A pass over steps none of which is the redis step leaves the recorded
redis `config_set` outcome unchanged. -/
theorem runSteps_redisSetOk (env : Env) (dev : Bool) (steps : List Step) (s : MState)
    (h : ∀ st ∈ steps, st.app ≠ .prodRedis) :
    (List.foldl (runStep env dev) s steps).redisSetOk = s.redisSetOk := by
  induction steps generalizing s with
  | nil => rfl
  | cons st rest ih =>
    rw [List.foldl_cons]
    have hrest : ∀ st' ∈ rest, st'.app ≠ .prodRedis :=
      fun st' hst' => h st' (List.mem_cons_of_mem _ hst')
    by_cases hc : (need_secret s.conf st.name && applies st.app env dev) = true
    · rw [ih _ hrest, runStep_fire hc, add_secret_redisSetOk,
        applyEffects_redisSetOk_of_ne _ _ _ _ (h st (List.mem_cons_self _ _)),
        genValue_snd_redisSetOk]
    · rw [runStep_skip (Bool.not_eq_true _ ▸ hc : _ = false)]
      exact ih _ hrest

/-! ## Helper lemmas: line splitting, trimming, joining -/

theorem splitOnChar_ne_nil (sep : Char) (l : List Char) : splitOnChar sep l ≠ [] := by
  induction l with
  | nil => simp [splitOnChar]
  | cons c rest ih =>
    by_cases h : c = sep
    · simp [splitOnChar, h]
    · simp only [splitOnChar, if_neg h]
      cases hs : splitOnChar sep rest with
      | nil => simp
      | cons a as => simp

theorem splitOnChar_of_no_sep {sep : Char} {l : List Char}
    (h : ∀ c ∈ l, ¬ c = sep) : splitOnChar sep l = [l] := by
  induction l with
  | nil => rfl
  | cons c rest ih =>
    have hc : ¬ c = sep := h c (List.mem_cons_self _ _)
    have hr := ih (fun d hd => h d (List.mem_cons_of_mem _ hd))
    simp only [splitOnChar, if_neg hc, hr]

theorem splitOnChar_append (sep : Char) (xs ys : List Char) :
    splitOnChar sep (xs ++ sep :: ys) = splitOnChar sep xs ++ splitOnChar sep ys := by
  induction xs with
  | nil => simp [splitOnChar]
  | cons c rest ih =>
    by_cases h : c = sep
    · simp only [List.cons_append, splitOnChar, if_pos h]
      rw [show rest.append (sep :: ys) = rest ++ sep :: ys from rfl, ih]
    · simp only [List.cons_append, splitOnChar, if_neg h]
      rw [show rest.append (sep :: ys) = rest ++ sep :: ys from rfl, ih]
      cases hs : splitOnChar sep rest with
      | nil => exact absurd hs (splitOnChar_ne_nil sep rest)
      | cons a as => simp [hs]

theorem foldl_append_data (ls : List String) (init : String) :
    (ls.foldl (fun r s => r ++ s) init).data =
      init.data ++ (ls.map String.data).flatten := by
  induction ls generalizing init with
  | nil => simp
  | cons a rest ih =>
    simp only [List.foldl_cons, ih, List.map_cons, List.flatten_cons, String.data_append]
    simp [List.append_assoc]

theorem string_join_data (ls : List String) :
    (String.join ls).data = (ls.map String.data).flatten := by
  simp [String.join, foldl_append_data ls ""]

theorem dropWhile_of_all_neg {p : α → Bool} {l : List α}
    (h : ∀ c ∈ l, p c = false) : l.dropWhile p = l := by
  cases l with
  | nil => rfl
  | cons c rest =>
    have := h c (List.mem_cons_self _ _)
    simp [List.dropWhile_cons, this]

theorem dropWhile_dropWhile_self (p : α → Bool) (l : List α) :
    (l.dropWhile p).dropWhile p = l.dropWhile p := by
  induction l with
  | nil => rfl
  | cons c rest ih =>
    by_cases h : p c = true
    · simp [List.dropWhile_cons, h, ih]
    · have h' : p c = false := by revert h; cases p c <;> simp
      simp [List.dropWhile_cons, h']

theorem ltrim_cons_of_nonws {c : Char} (l : List Char) (h : wsb c = false) :
    ltrim (c :: l) = c :: l := by
  simp [ltrim, List.dropWhile_cons, h]

theorem ltrim_cons_of_ws {c : Char} (l : List Char) (h : wsb c = true) :
    ltrim (c :: l) = ltrim l := by
  simp [ltrim, List.dropWhile_cons, h]

theorem ltrim_of_all_nonws {l : List Char} (h : ∀ c ∈ l, wsb c = false) :
    ltrim l = l := dropWhile_of_all_neg h

theorem rtrim_of_all_nonws {l : List Char} (h : ∀ c ∈ l, wsb c = false) :
    rtrim l = l := by
  unfold rtrim
  rw [dropWhile_of_all_neg (fun c hc => h c (List.mem_reverse.mp hc))]
  exact l.reverse_reverse

theorem rtrim_append (A B : List Char) :
    rtrim (A ++ B) = if rtrim B = [] then rtrim A else A ++ rtrim B := by
  unfold rtrim
  rw [List.reverse_append, List.dropWhile_append]
  by_cases h : (B.reverse.dropWhile wsb).isEmpty = true
  · have hB : B.reverse.dropWhile wsb = [] := by
      cases hd : B.reverse.dropWhile wsb with
      | nil => rfl
      | cons a as => rw [hd] at h; simp [List.isEmpty] at h
    rw [if_pos h, if_pos (by rw [hB]; rfl)]
  · have hB : (B.reverse.dropWhile wsb).reverse ≠ [] := by
      intro he
      have : B.reverse.dropWhile wsb = [] := by
        have := congrArg List.reverse he
        simpa using this
      rw [this] at h; simp [List.isEmpty] at h
    rw [if_neg h, if_neg hB, List.reverse_append, List.reverse_reverse]

theorem rtrim_idem (l : List Char) : rtrim (rtrim l) = rtrim l := by
  unfold rtrim
  rw [List.reverse_reverse, dropWhile_dropWhile_self]

theorem rtrim_cons (c : Char) (l : List Char) :
    rtrim (c :: l) =
      if rtrim l = [] then (if wsb c then [] else [c]) else c :: rtrim l := by
  have h := rtrim_append [c] l
  simp only [List.cons_append, List.nil_append] at h
  rw [h]
  by_cases hc : wsb c = true
  · simp [rtrim, hc]
  · have hc' : wsb c = false := by revert hc; cases wsb c <;> simp
    simp [rtrim, hc']

/-! ## Helper lemmas: evaluating the parser on generated lines -/

theorem parseLine_blank (ps : ParserSt) : parseLine (some ps) [] = some ps := rfl

theorem parseLine_header (items : List (String × String)) :
    parseLine (some ⟨false, items⟩) "[secrets]".data = some ⟨true, items⟩ := rfl

/-- Control-flow of `parseLine` on a well-formed key/value chunk whose trimmed
form is `name ++ " =" ++ rest`: the key parses to the name, the value to the
trimmed rest, and a duplicate key is a parse error. -/
theorem parseLine_eval_kv (ps : ParserSt) (hsh : ps.seenHeader = true)
    (chunk : List Char) (c : Char) (N' rest : List Char)
    (ht : trimChars chunk = (c :: N') ++ ([' ', '='] ++ rest))
    (hc1 : ¬ c = '[') (hc2 : ¬ c = '#') (hc3 : ¬ c = ';')
    (hallws : ∀ d ∈ c :: N', wsb d = false)
    (hallne : ∀ d ∈ c :: N', ¬ d = '=') :
    parseLine (some ps) chunk =
      if (confLookup ps.items (String.mk (c :: N'))).isSome then none
      else some { ps with
        items := ps.items ++ [(String.mk (c :: N'), String.mk (trimChars rest))] } := by
  have hkeyarg : (trimChars chunk).takeWhile (fun d => d ≠ '=') = (c :: N') ++ [' '] := by
    rw [ht, List.takeWhile_append_of_pos (by
      intro a ha
      exact decide_eq_true (hallne a ha))]
    rfl
  have hkey : trimChars ((trimChars chunk).takeWhile (fun d => d ≠ '=')) = c :: N' := by
    rw [hkeyarg]
    unfold trimChars
    rw [rtrim_append, if_pos (by rfl), rtrim_of_all_nonws hallws,
      ltrim_cons_of_nonws _ (hallws c (List.mem_cons_self _ _))]
  have hdroparg : (trimChars chunk).dropWhile (fun d => d ≠ '=') = '=' :: rest := by
    rw [ht, List.dropWhile_append_of_pos (by
      intro a ha
      exact decide_eq_true (hallne a ha))]
    rfl
  have hval : trimChars (((trimChars chunk).dropWhile (fun d => d ≠ '=')).drop 1) =
      trimChars rest := by
    rw [hdroparg]; rfl
  have hne_header : ¬ trimChars chunk = "[secrets]".data := by
    rw [ht]
    intro he
    simp only [List.cons_append] at he
    have : c = '[' := by
      have := congrArg (fun l => l.head?) he
      simpa using this
    exact hc1 this
  have hcontains : (trimChars chunk).contains '=' = true := by
    rw [ht]
    apply List.elem_eq_true_of_mem
    exact List.mem_append_right _ (List.mem_append_left _ (by simp))
  unfold parseLine
  rw [ht]
  simp only [List.cons_append, List.append_assoc, List.nil_append]
  rw [if_neg (by
    push_neg
    exact ⟨hc2, hc3⟩)]
  rw [if_neg (by
    intro he
    exact hne_header (by
      rw [ht]
      simpa [List.cons_append, List.append_assoc, List.nil_append] using he))]
  rw [if_neg hc1]
  rw [if_pos (by
    have h2 := hcontains
    rw [ht] at h2
    simp only [List.cons_append, List.append_assoc, List.nil_append] at h2
    exact h2)]
  rw [if_pos hsh]
  have hkey' : trimChars ((c :: (N' ++ ' ' :: '=' :: rest)).takeWhile (fun d => d ≠ '=')) =
      c :: N' := by
    have h2 := hkey
    rw [ht] at h2
    simpa [List.cons_append, List.append_assoc, List.nil_append] using h2
  have hval' : trimChars (((c :: (N' ++ ' ' :: '=' :: rest)).dropWhile (fun d => d ≠ '=')).drop 1) =
      trimChars rest := by
    have h2 := hval
    rw [ht] at h2
    simpa [List.cons_append, List.append_assoc, List.nil_append] using h2
  rw [hkey', hval']
  rw [if_neg (by simp : ¬ (c :: N' : List Char) = [])]

theorem string_mk_data (n : String) : String.mk n.data = n := rfl

/-- `parseLine` on a generated `name = value` chunk with a good name: stores
the name verbatim and the whitespace-trimmed value; a duplicate name is a
parse error. -/
theorem parseLine_kv (ps : ParserSt) (hsh : ps.seenHeader = true) (n v : String)
    (hn : goodNameS n = true) :
    parseLine (some ps) (kvChunk (n, v)) =
      if (confLookup ps.items n).isSome then none
      else some { ps with items := ps.items ++ [trimPair (n, v)] } := by
  cases hN : n.data with
  | nil => unfold goodNameS at hn; rw [hN] at hn; simp at hn
  | cons c N' =>
    unfold goodNameS at hn
    rw [hN] at hn
    simp only [Bool.and_eq_true, List.all_eq_true, decide_eq_true_eq,
      Bool.not_eq_true'] at hn
    obtain ⟨⟨⟨hc1, hc2⟩, hc3⟩, hall⟩ := hn
    have hallws : ∀ d ∈ c :: N', wsb d = false := fun d hd => (hall d hd).1
    have hallne : ∀ d ∈ c :: N', ¬ d = '=' := fun d hd => (hall d hd).2
    have hchunk : kvChunk (n, v) = (n.data ++ [' ', '=']) ++ (' ' :: v.data) := by
      simp [kvChunk, String.data_append, List.append_assoc]
    have hrtrimA : rtrim (n.data ++ [' ', '=']) = n.data ++ [' ', '='] := by
      rw [show n.data ++ [' ', '='] = (n.data ++ [' ']) ++ ['='] by simp, rtrim_append,
        if_neg (by decide)]
      simp [show rtrim ['='] = ['='] by decide]
    by_cases hB : rtrim (' ' :: v.data) = []
    · have hV : rtrim v.data = [] := by
        rw [rtrim_cons] at hB
        by_cases hV : rtrim v.data = []
        · exact hV
        · rw [if_neg hV] at hB; simp at hB
      have ht : trimChars (kvChunk (n, v)) = (c :: N') ++ ([' ', '='] ++ []) := by
        unfold trimChars
        rw [hchunk, rtrim_append, if_pos hB, hrtrimA, hN, List.cons_append,
          ltrim_cons_of_nonws _ (hallws c (List.mem_cons_self _ _))]
        simp [List.append_assoc]
      rw [parseLine_eval_kv ps hsh _ c N' [] ht hc1 hc2 hc3 hallws hallne]
      have hstore : String.mk (trimChars []) = String.mk (trimChars v.data) := by
        unfold trimChars
        rw [hV]
        rfl
      rw [show String.mk (c :: N') = n by rw [← hN], hstore]
      rfl
    · have hV : ¬ rtrim v.data = [] := by
        intro hV
        rw [rtrim_cons, if_pos hV] at hB
        simp [show wsb ' ' = true by decide] at hB
      have hBval : rtrim (' ' :: v.data) = ' ' :: rtrim v.data := by
        rw [rtrim_cons, if_neg hV]
      have ht : trimChars (kvChunk (n, v)) =
          (c :: N') ++ ([' ', '='] ++ (' ' :: rtrim v.data)) := by
        unfold trimChars
        rw [hchunk, rtrim_append, if_neg hB, hBval, hN, List.cons_append,
          List.cons_append, ltrim_cons_of_nonws _ (hallws c (List.mem_cons_self _ _))]
        simp [List.append_assoc]
      rw [parseLine_eval_kv ps hsh _ c N' (' ' :: rtrim v.data) ht hc1 hc2 hc3 hallws hallne]
      have hstore : String.mk (trimChars (' ' :: rtrim v.data)) =
          String.mk (trimChars v.data) := by
        unfold trimChars
        rw [rtrim_cons, if_neg (by rw [rtrim_idem]; exact hV), rtrim_idem,
          ltrim_cons_of_ws _ (by decide)]
      rw [show String.mk (c :: N') = n by rw [← hN], hstore]
      rfl

/-- Splitting the concatenation of generated `name = value\n` lines yields one
chunk per line plus a final empty chunk. -/
theorem split_join_kv (added : List (String × String))
    (h : ∀ p ∈ added, ∀ c ∈ kvChunk p, ¬ c = '\n') :
    splitOnChar '\n' (String.join (added.map fmtLine)).data =
      added.map kvChunk ++ [[]] := by
  induction added with
  | nil => rfl
  | cons p rest ih =>
    have hdata : (String.join ((p :: rest).map fmtLine)).data =
        kvChunk p ++ '\n' :: (String.join (rest.map fmtLine)).data := by
      rw [List.map_cons, string_join_data, List.map_cons, List.flatten_cons,
        ← string_join_data]
      have hf : (fmtLine p).data = kvChunk p ++ ['\n'] := by
        simp [fmtLine, kvChunk, String.data_append]
      rw [hf, List.append_assoc]
      rfl
    rw [hdata, splitOnChar_append,
      splitOnChar_of_no_sep (h p (List.mem_cons_self _ _)),
      ih (fun q hq => h q (List.mem_cons_of_mem _ hq))]
    rfl

/-- Folding the parser over generated key/value chunks from a post-header state
appends exactly the trimmed pairs. -/
theorem parse_kv_chunks (items : List (String × String))
    (added : List (String × String))
    (hgood : ∀ p ∈ added, goodNameS p.1 = true)
    (hfresh : ∀ p ∈ added, confLookup items p.1 = none)
    (hnd : (added.map Prod.fst).Nodup) :
    (added.map kvChunk).foldl parseLine (some ⟨true, items⟩) =
      some ⟨true, items ++ added.map trimPair⟩ := by
  induction added generalizing items with
  | nil => simp
  | cons p rest ih =>
    rw [List.map_cons, List.foldl_cons]
    rw [parseLine_kv ⟨true, items⟩ rfl p.1 p.2 (hgood p (List.mem_cons_self _ _))]
    rw [if_neg (by rw [hfresh p (List.mem_cons_self _ _)]; simp)]
    rw [List.map_cons] at hnd
    have hnd' := List.nodup_cons.mp hnd
    have hih := ih (items ++ [trimPair p])
      (fun q hq => hgood q (List.mem_cons_of_mem _ hq))
      (fun q hq => by
        apply confLookup_append_eq_none_iff.mpr
        refine ⟨hfresh q (List.mem_cons_of_mem _ hq), ?_⟩
        have hqne : ¬ p.1 = q.1 := by
          intro he
          exact hnd'.1 (he ▸ List.mem_map_of_mem Prod.fst hq)
        simp [trimPair, confLookup, hqne])
      hnd'.2
    have : (⟨p.1, p.2⟩ : String × String) = p := rfl
    rw [show ({ seenHeader := true, items := items ++ [trimPair (p.1, p.2)] } : ParserSt) =
        ⟨true, items ++ [trimPair p]⟩ by rfl]
    rw [hih, List.append_assoc]
    rfl

/-- Appending generated lines (with fresh, well-formed names and newline-free
values) after a parseable non-header-only file parses to the old mapping plus
the trimmed new pairs. -/
theorem parse_append (c0 : String) (conf added : List (String × String))
    (hc : parseSecretsFile c0 = some conf)
    (hgood : ∀ p ∈ added, goodNameS p.1 = true)
    (hnl : ∀ p ∈ added, noNlB p.2 = true)
    (hfresh : ∀ p ∈ added, confLookup conf p.1 = none)
    (hnd : (added.map Prod.fst).Nodup) :
    parseSecretsFile (c0 ++ "\n" ++ String.join (added.map fmtLine)) =
      some (conf ++ added.map trimPair) := by
  have hchunknl : ∀ p ∈ added, ∀ c ∈ kvChunk p, ¬ c = '\n' := by
    intro p hp c hcmem
    have hgp := hgood p hp
    have hnp := hnl p hp
    unfold kvChunk at hcmem
    rw [String.data_append, String.data_append] at hcmem
    rcases List.mem_append.mp hcmem with hm | hm
    · rcases List.mem_append.mp hm with hm2 | hm2
      · cases hd : p.1.data with
        | nil => rw [hd] at hm2; simp at hm2
        | cons a as =>
          unfold goodNameS at hgp
          rw [hd] at hgp hm2
          simp only [Bool.and_eq_true, List.all_eq_true, decide_eq_true_eq,
            Bool.not_eq_true'] at hgp
          intro he
          have := (hgp.2 c hm2).1
          rw [he] at this
          exact absurd this (by decide)
      · intro he
        rw [he] at hm2
        revert hm2
        decide
    · intro he
      unfold noNlB at hnp
      rw [List.all_eq_true] at hnp
      have := hnp c hm
      rw [he] at this
      simp at this
  have hdata : (c0 ++ "\n" ++ String.join (added.map fmtLine)).data =
      c0.data ++ '\n' :: (String.join (added.map fmtLine)).data := by
    rw [String.data_append, String.data_append, List.append_assoc]
    rfl
  unfold parseSecretsFile at hc ⊢
  rw [hdata, splitOnChar_append, split_join_kv added hchunknl, List.foldl_append]
  cases hF : (splitOnChar '\n' c0.data).foldl parseLine (some ⟨false, []⟩) with
  | none => rw [hF] at hc; simp at hc
  | some ps =>
    rw [hF] at hc
    obtain ⟨sh, its⟩ := ps
    cases sh with
    | false => simp at hc
    | true =>
      have hits : its = conf := by simpa using hc
      rw [hits]
      rw [List.foldl_append, parse_kv_chunks conf added hgood hfresh hnd]
      rfl

/-- A first run against an absent or empty file writes `"\n"`, the header line
and the generated lines; that content parses to exactly the trimmed new
pairs. -/
theorem parse_header_block (added : List (String × String))
    (hgood : ∀ p ∈ added, goodNameS p.1 = true)
    (hnl : ∀ p ∈ added, noNlB p.2 = true)
    (hnd : (added.map Prod.fst).Nodup) :
    parseSecretsFile ("" ++ "\n" ++ String.join ("[secrets]\n" :: added.map fmtLine)) =
      some (added.map trimPair) := by
  have hchunknl : ∀ p ∈ added, ∀ c ∈ kvChunk p, ¬ c = '\n' := by
    intro p hp c hcmem
    have hgp := hgood p hp
    have hnp := hnl p hp
    unfold kvChunk at hcmem
    rw [String.data_append, String.data_append] at hcmem
    rcases List.mem_append.mp hcmem with hm | hm
    · rcases List.mem_append.mp hm with hm2 | hm2
      · cases hd : p.1.data with
        | nil => rw [hd] at hm2; simp at hm2
        | cons a as =>
          unfold goodNameS at hgp
          rw [hd] at hgp hm2
          simp only [Bool.and_eq_true, List.all_eq_true, decide_eq_true_eq,
            Bool.not_eq_true'] at hgp
          intro he
          have := (hgp.2 c hm2).1
          rw [he] at this
          exact absurd this (by decide)
      · intro he
        rw [he] at hm2
        revert hm2
        decide
    · intro he
      unfold noNlB at hnp
      rw [List.all_eq_true] at hnp
      have := hnp c hm
      rw [he] at this
      simp at this
  have hdata : ("" ++ "\n" ++ String.join ("[secrets]\n" :: added.map fmtLine)).data =
      '\n' :: ("[secrets]".data ++ '\n' :: (String.join (added.map fmtLine)).data) := by
    rw [String.data_append, String.data_append, string_join_data, List.map_cons,
      List.flatten_cons, ← string_join_data]
    rw [show ("[secrets]\n".data : List Char) = "[secrets]".data ++ ['\n'] by decide]
    rw [show ("".data : List Char) = [] from rfl, show ("\n".data : List Char) = ['\n'] from rfl]
    simp [List.append_assoc]
  unfold parseSecretsFile
  rw [hdata]
  rw [show splitOnChar '\n' ('\n' :: ("[secrets]".data ++ '\n' ::
      (String.join (added.map fmtLine)).data)) =
      [] :: splitOnChar '\n' ("[secrets]".data ++ '\n' ::
        (String.join (added.map fmtLine)).data) by simp [splitOnChar]]
  rw [splitOnChar_append, splitOnChar_of_no_sep (by decide), split_join_kv added hchunknl]
  rw [List.foldl_cons, parseLine_blank]
  rw [show ([("[secrets]".data : List Char)] ++ (added.map kvChunk ++ [[]])) =
      "[secrets]".data :: (added.map kvChunk ++ [[]]) by rfl]
  rw [List.foldl_cons, parseLine_header, List.foldl_append,
    parse_kv_chunks [] added hgood (fun p _ => rfl) hnd]
  rfl

/-! ## Helper lemmas: connecting the merge pass to the parser -/

theorem string_join_cons (a : String) (l : List String) :
    String.join (a :: l) = a ++ String.join l := by
  apply String.ext
  rw [string_join_data, List.map_cons, List.flatten_cons, String.data_append,
    string_join_data]

theorem string_join_mem_decomp {x : String} {ls : List String} (h : x ∈ ls) :
    ∃ a b : String, String.join ls = a ++ (x ++ b) := by
  induction ls with
  | nil => simp at h
  | cons y rest ih =>
    rcases List.mem_cons.mp h with he | hm
    · exact ⟨"", String.join rest, by rw [string_join_cons, he]; simp⟩
    · obtain ⟨a, b, hab⟩ := ih hm
      exact ⟨y ++ a, b, by rw [string_join_cons, hab, String.append_assoc]⟩

theorem stepsNamesGood : ∀ st ∈ secretSteps, goodNameS st.name = true := by decide

theorem envValueFor_noNl {env : Env} (hwf : EnvWF env) {g : Gen} {v : String}
    (h : envValueFor env g v) : noNlB v = true := by
  obtain ⟨h1, h2, h3, h4, h5⟩ := hwf
  cases g with
  | token => obtain ⟨i, hi⟩ := h; rw [hi]; exact h1 i
  | str64 => obtain ⟨i, hi⟩ := h; rw [hi]; exact h2 i
  | djangoKey => rw [h]; exact h3
  | uuidGen => rw [h]; exact h4
  | envPostgres =>
    rw [h]
    cases hr : env.REMOTE_POSTGRES_PASSWORD with
    | none => simp [pyOptStr]; decide
    | some s => simpa [pyOptStr] using h5 s hr

theorem map_fst_trimPair (added : List (String × String)) :
    (added.map trimPair).map Prod.fst = added.map Prod.fst := by
  rw [List.map_map]
  rfl

/-- The structure of `mergeSecrets`: the initial mapping plus a block of fresh,
well-sourced pairs; the pending lines are the optional header plus the
formatted pairs. -/
theorem mergeSecrets_spec (env : Env) (dev : Bool) (conf : List (String × String)) :
    ∃ added : List (String × String),
      (mergeSecrets env dev conf).conf = conf ++ added ∧
      (mergeSecrets env dev conf).lines =
        (if conf.length = 0 then ["[secrets]\n"] else []) ++ added.map fmtLine ∧
      (∀ p ∈ added, confLookup conf p.1 = none) ∧
      (added.map Prod.fst).Nodup ∧
      (∀ p ∈ added, ∃ st ∈ secretSteps, st.name = p.1 ∧
        applies st.app env dev = true ∧ envValueFor env st.gen p.2) := by
  obtain ⟨added, h1, h2, h3, h4, h5⟩ := runSteps_spec env dev secretSteps (initState conf)
  exact ⟨added, h1, h2, h3, h4, h5⟩

/-- A name guarded by an applicable step is present after the merge pass. -/
theorem merge_guarded_present (env : Env) (dev : Bool) (conf : List (String × String))
    {st : Step} (hst : st ∈ secretSteps) (ha : applies st.app env dev = true) :
    (confLookup (mergeSecrets env dev conf).conf st.name).isSome = true := by
  cases hl : confLookup (mergeSecrets env dev conf).conf st.name with
  | none =>
    have := (runSteps_lookup_none env dev secretSteps (initState conf) st.name).mp hl
    have hfalse := this.2 st hst rfl
    rw [hfalse] at ha
    exact absurd ha (by simp)
  | some v => rfl

/-- If every applicable step's secret is already present, the merge pass
returns the initial state. -/
theorem merge_noop (env : Env) (dev : Bool) (conf : List (String × String))
    (h : ∀ st ∈ secretSteps, applies st.app env dev = true →
      (confLookup conf st.name).isSome = true) :
    mergeSecrets env dev conf = initState conf :=
  runSteps_noop env dev secretSteps (initState conf) h

/-- Unfolding of the file-level run once the old mapping is known. -/
theorem generate_secrets_eq (env : Env) (dev : Bool) (f0 : Option String)
    (conf : List (String × String)) (h : get_old_conf f0 = some conf) :
    generate_secrets env dev f0 =
      (if (mergeSecrets env dev conf).lines.length = 0 then
        some ⟨f0, mergeSecrets env dev conf, false,
          "generate_secrets: No new secrets to generate."⟩
      else
        some ⟨some (contentOf f0 ++ "\n" ++ String.join (mergeSecrets env dev conf).lines),
          mergeSecrets env dev conf, true,
          "Generated new secrets in " ++ OUTPUT_SETTINGS_FILENAME dev ++ "."⟩) := by
  unfold generate_secrets
  rw [h]

theorem secretSteps_eq :
    secretSteps =
      [⟨"avatar_salt", .always, .token⟩,
       ⟨"rabbitmq_password", .always, .token⟩,
       ⟨"shared_secret", .always, .token⟩,
       ⟨"thumbor_key", .always, .token⟩,
       ⟨"initial_password_salt", .devOnly, .token⟩,
       ⟨"local_database_password", .devOnly, .token⟩,
       ⟨"secret_key", .always, .djangoKey⟩,
       ⟨"camo_key", .always, .str64⟩,
       ⟨"memcached_password", .prodMemcached, .token⟩,
       ⟨"redis_password", .prodRedis, .token⟩,
       ⟨"zulip_org_key", .always, .str64⟩,
       ⟨"zulip_org_id", .always, .uuidGen⟩,
       ⟨"postgres_password", .always, .envPostgres⟩] := rfl

theorem generate_secrets_state (env : Env) (dev : Bool) (f0 : Option String)
    (conf : List (String × String)) (h : get_old_conf f0 = some conf) :
    (generate_secrets env dev f0).map RunResult.state = some (mergeSecrets env dev conf) := by
  rw [generate_secrets_eq env dev f0 conf h]
  by_cases hl : (mergeSecrets env dev conf).lines.length = 0
  · rw [if_pos hl, Option.map_some']
  · rw [if_neg hl, Option.map_some']

/-! ## The claims -/

/-- C3: mode gating — starting from an empty secrets file (empty parsed
mapping), a production-mode run never adds `initial_password_salt` or
`local_database_password`, and a development-mode run never adds
`memcached_password` or `redis_password`; stated both on the merge pass and on
a file-level run against an absent file. -/
theorem mode_gating_c3 (env : Env) :
    confLookup (mergeSecrets env false []).conf "initial_password_salt" = none ∧
    confLookup (mergeSecrets env false []).conf "local_database_password" = none ∧
    confLookup (mergeSecrets env true []).conf "memcached_password" = none ∧
    confLookup (mergeSecrets env true []).conf "redis_password" = none ∧
    (generate_secrets env false none).map
      (fun r => (confLookup r.state.conf "initial_password_salt",
                 confLookup r.state.conf "local_database_password")) =
      some (none, none) ∧
    (generate_secrets env true none).map
      (fun r => (confLookup r.state.conf "memcached_password",
                 confLookup r.state.conf "redis_password")) =
      some (none, none) := by
  have h1 : confLookup (mergeSecrets env false []).conf "initial_password_salt" = none := by
    refine (runSteps_lookup_none env false secretSteps (initState []) _).mpr ⟨rfl, ?_⟩
    intro st hst hname
    rw [secretSteps_eq] at hst
    fin_cases hst <;> first
      | exact absurd hname (by decide)
      | rfl
  have h2 : confLookup (mergeSecrets env false []).conf "local_database_password" = none := by
    refine (runSteps_lookup_none env false secretSteps (initState []) _).mpr ⟨rfl, ?_⟩
    intro st hst hname
    rw [secretSteps_eq] at hst
    fin_cases hst <;> first
      | exact absurd hname (by decide)
      | rfl
  have h3 : confLookup (mergeSecrets env true []).conf "memcached_password" = none := by
    refine (runSteps_lookup_none env true secretSteps (initState []) _).mpr ⟨rfl, ?_⟩
    intro st hst hname
    rw [secretSteps_eq] at hst
    fin_cases hst <;> first
      | exact absurd hname (by decide)
      | rfl
  have h4 : confLookup (mergeSecrets env true []).conf "redis_password" = none := by
    refine (runSteps_lookup_none env true secretSteps (initState []) _).mpr ⟨rfl, ?_⟩
    intro st hst hname
    rw [secretSteps_eq] at hst
    fin_cases hst <;> first
      | exact absurd hname (by decide)
      | rfl
  refine ⟨h1, h2, h3, h4, ?_, ?_⟩
  · have hs := generate_secrets_state env false none [] rfl
    cases hr : generate_secrets env false none with
    | none => rw [hr] at hs; simp at hs
    | some r =>
      rw [hr] at hs
      simp only [Option.map_some'] at hs
      have hstate : r.state = mergeSecrets env false [] := by
        injection hs
      simp [Option.map_some', hstate, h1, h2]
  · have hs := generate_secrets_state env true none [] rfl
    cases hr : generate_secrets env true none with
    | none => rw [hr] at hs; simp at hs
    | some r =>
      rw [hr] at hs
      simp only [Option.map_some'] at hs
      have hstate : r.state = mergeSecrets env true [] := by
        injection hs
      simp [Option.map_some', hstate, h3, h4]

/-- C4: conditional generation — in a production-mode merge pass with the
secret absent, `memcached_password` (resp. `redis_password`) ends up present
if and only if the configured cache endpoint equals the loopback endpoint
`"127.0.0.1:11211"` (resp. the queue host equals `"127.0.0.1"`), the literal
loopback checks of the source; with a non-loopback host the secret stays
absent even in production mode. -/
theorem conditional_generation_c4 (env : Env) (conf : List (String × String))
    (h1 : confLookup conf "memcached_password" = none)
    (h2 : confLookup conf "redis_password" = none) :
    ((confLookup (mergeSecrets env false conf).conf "memcached_password").isSome = true ↔
      env.settings.MEMCACHED_LOCATION = "127.0.0.1:11211") ∧
    ((confLookup (mergeSecrets env false conf).conf "redis_password").isSome = true ↔
      env.settings.REDIS_HOST = "127.0.0.1") := by
  constructor
  · constructor
    · intro hsome
      by_contra hne
      have hnone : confLookup (mergeSecrets env false conf).conf "memcached_password" = none := by
        refine (runSteps_lookup_none env false secretSteps (initState conf) _).mpr ⟨h1, ?_⟩
        intro st hst hname
        rw [secretSteps_eq] at hst
        fin_cases hst <;> first
          | exact absurd hname (by decide)
          | (simp [applies]; exact hne)
      rw [hnone] at hsome
      simp at hsome
    · intro heq
      exact @merge_guarded_present env false conf
        ⟨"memcached_password", .prodMemcached, .token⟩
        (by rw [secretSteps_eq]; simp)
        (by simp [applies, heq])
  · constructor
    · intro hsome
      by_contra hne
      have hnone : confLookup (mergeSecrets env false conf).conf "redis_password" = none := by
        refine (runSteps_lookup_none env false secretSteps (initState conf) _).mpr ⟨h2, ?_⟩
        intro st hst hname
        rw [secretSteps_eq] at hst
        fin_cases hst <;> first
          | exact absurd hname (by decide)
          | (simp [applies]; exact hne)
      rw [hnone] at hsome
      simp at hsome
    · intro heq
      exact @merge_guarded_present env false conf
        ⟨"redis_password", .prodRedis, .token⟩
        (by rw [secretSteps_eq]; simp)
        (by simp [applies, heq])

/-- C5: no-op frame — when the merge pass generated no pending lines the run
reports "No new secrets to generate" and returns the file untouched (no
write); otherwise it appends a defensive leading newline followed by every
pending line and reports success with the mode's output path. -/
theorem noop_frame_c5 (env : Env) (dev : Bool) (f0 : Option String)
    (conf : List (String × String)) (h : get_old_conf f0 = some conf) :
    ((mergeSecrets env dev conf).lines = [] →
      generate_secrets env dev f0 =
        some ⟨f0, mergeSecrets env dev conf, false,
          "generate_secrets: No new secrets to generate."⟩) ∧
    ((mergeSecrets env dev conf).lines ≠ [] →
      generate_secrets env dev f0 =
        some ⟨some (contentOf f0 ++ "\n" ++ String.join (mergeSecrets env dev conf).lines),
          mergeSecrets env dev conf, true,
          "Generated new secrets in " ++ OUTPUT_SETTINGS_FILENAME dev ++ "."⟩) := by
  rw [generate_secrets_eq env dev f0 conf h]
  constructor
  · intro he
    rw [if_pos (by rw [he]; rfl)]
  · intro hne
    rw [if_neg (by
      intro hlen
      exact hne (List.length_eq_zero.mp hlen))]

/-- C7: external-database password — whenever `postgres_password` is absent
the run adds it, its value being exactly the content of the
`REMOTE_POSTGRES_PASSWORD` environment variable with no fallback; when the
variable is unset the run does not fail, and the recorded value is the
formatted `"None"` of Python's `"%s" % None`. -/
theorem postgres_password_c7 (env : Env) (dev : Bool) (f0 : Option String)
    (conf : List (String × String)) (h : get_old_conf f0 = some conf)
    (habs : confLookup conf "postgres_password" = none) :
    confLookup (mergeSecrets env dev conf).conf "postgres_password" =
      some (pyOptStr env.REMOTE_POSTGRES_PASSWORD) ∧
    (env.REMOTE_POSTGRES_PASSWORD = none →
      confLookup (mergeSecrets env dev conf).conf "postgres_password" = some "None") ∧
    (generate_secrets env dev f0).isSome = true := by
  have hsplit : secretSteps =
      [⟨"avatar_salt", .always, .token⟩,
       ⟨"rabbitmq_password", .always, .token⟩,
       ⟨"shared_secret", .always, .token⟩,
       ⟨"thumbor_key", .always, .token⟩,
       ⟨"initial_password_salt", .devOnly, .token⟩,
       ⟨"local_database_password", .devOnly, .token⟩,
       ⟨"secret_key", .always, .djangoKey⟩,
       ⟨"camo_key", .always, .str64⟩,
       ⟨"memcached_password", .prodMemcached, .token⟩,
       ⟨"redis_password", .prodRedis, .token⟩,
       ⟨"zulip_org_key", .always, .str64⟩,
       ⟨"zulip_org_id", .always, .uuidGen⟩] ++
      [⟨"postgres_password", .always, .envPostgres⟩] := rfl
  have hmain : confLookup (mergeSecrets env dev conf).conf "postgres_password" =
      some (pyOptStr env.REMOTE_POSTGRES_PASSWORD) := by
    unfold mergeSecrets
    rw [hsplit, List.foldl_append]
    obtain ⟨added, hconf, _, _, _, hsrc⟩ :=
      runSteps_spec env dev
        [⟨"avatar_salt", .always, .token⟩,
         ⟨"rabbitmq_password", .always, .token⟩,
         ⟨"shared_secret", .always, .token⟩,
         ⟨"thumbor_key", .always, .token⟩,
         ⟨"initial_password_salt", .devOnly, .token⟩,
         ⟨"local_database_password", .devOnly, .token⟩,
         ⟨"secret_key", .always, .djangoKey⟩,
         ⟨"camo_key", .always, .str64⟩,
         ⟨"memcached_password", .prodMemcached, .token⟩,
         ⟨"redis_password", .prodRedis, .token⟩,
         ⟨"zulip_org_key", .always, .str64⟩,
         ⟨"zulip_org_id", .always, .uuidGen⟩] (initState conf)
    have hpre : confLookup (List.foldl (runStep env dev) (initState conf)
        [⟨"avatar_salt", .always, .token⟩,
         ⟨"rabbitmq_password", .always, .token⟩,
         ⟨"shared_secret", .always, .token⟩,
         ⟨"thumbor_key", .always, .token⟩,
         ⟨"initial_password_salt", .devOnly, .token⟩,
         ⟨"local_database_password", .devOnly, .token⟩,
         ⟨"secret_key", .always, .djangoKey⟩,
         ⟨"camo_key", .always, .str64⟩,
         ⟨"memcached_password", .prodMemcached, .token⟩,
         ⟨"redis_password", .prodRedis, .token⟩,
         ⟨"zulip_org_key", .always, .str64⟩,
         ⟨"zulip_org_id", .always, .uuidGen⟩]).conf "postgres_password" = none := by
      rw [hconf]
      apply confLookup_append_eq_none_iff.mpr
      refine ⟨habs, ?_⟩
      apply confLookup_eq_none_iff.mpr
      intro p hp he
      obtain ⟨st, hst, hname, _, _⟩ := hsrc p hp
      rw [he] at hname
      fin_cases hst <;> exact absurd hname (by decide)
    rw [List.foldl_cons, List.foldl_nil]
    have hfire : (need_secret (List.foldl (runStep env dev) (initState conf)
        [⟨"avatar_salt", .always, .token⟩,
         ⟨"rabbitmq_password", .always, .token⟩,
         ⟨"shared_secret", .always, .token⟩,
         ⟨"thumbor_key", .always, .token⟩,
         ⟨"initial_password_salt", .devOnly, .token⟩,
         ⟨"local_database_password", .devOnly, .token⟩,
         ⟨"secret_key", .always, .djangoKey⟩,
         ⟨"camo_key", .always, .str64⟩,
         ⟨"memcached_password", .prodMemcached, .token⟩,
         ⟨"redis_password", .prodRedis, .token⟩,
         ⟨"zulip_org_key", .always, .str64⟩,
         ⟨"zulip_org_id", .always, .uuidGen⟩]).conf
        (⟨"postgres_password", .always, .envPostgres⟩ : Step).name &&
        applies (⟨"postgres_password", .always, .envPostgres⟩ : Step).app env dev) = true := by
      unfold need_secret
      rw [hpre]
      rfl
    rw [runStep_conf_of_fire hfire]
    rw [confLookup_append_right _ hpre]
    rfl
  refine ⟨hmain, fun hN => by rw [hmain, hN]; rfl, ?_⟩
  rw [generate_secrets_eq env dev f0 conf h]
  by_cases hl : (mergeSecrets env dev conf).lines.length = 0
  · rw [if_pos hl]; rfl
  · rw [if_neg hl]; rfl

/-- C2: preservation — a name already present in the parsed mapping keeps its
original value through the merge pass in either mode, and the run only ever
appends to the secrets file: the new content is the old content followed by
the appended block (empty when nothing was pending). -/
theorem preservation_c2 (env : Env) (dev : Bool) (f0 : Option String)
    (conf : List (String × String)) (name v : String)
    (h : get_old_conf f0 = some conf) (hv : confLookup conf name = some v) :
    confLookup (mergeSecrets env dev conf).conf name = some v ∧
    (generate_secrets env dev f0).map (fun r => contentOf r.file) =
      some (contentOf f0 ++
        (if (mergeSecrets env dev conf).lines.length = 0 then ""
         else "\n" ++ String.join (mergeSecrets env dev conf).lines)) := by
  constructor
  · obtain ⟨added, hconf, _, _, _, _⟩ := mergeSecrets_spec env dev conf
    rw [hconf]
    exact confLookup_append_left _ hv
  · rw [generate_secrets_eq env dev f0 conf h]
    by_cases hl : (mergeSecrets env dev conf).lines.length = 0
    · rw [if_pos hl, if_pos hl, Option.map_some']
      refine congrArg some (String.ext ?_)
      rw [String.data_append, show ("".data : List Char) = [] from rfl, List.append_nil]
    · rw [if_neg hl, if_neg hl, Option.map_some']
      refine congrArg some (String.ext ?_)
      simp [contentOf, String.data_append, string_join_data, List.append_assoc]

/-- C10: header emission — the `'[secrets]\n'` header is prepended to the
pending output exactly when the parsed mapping is empty: with an empty mapping
it is the first pending line (so a run against a non-empty file whose
`secrets` section has no keys appends a second header), and with a non-empty
mapping the pending lines are bare `name = value` lines containing no
header. -/
theorem header_emission_c10 (env : Env) (dev : Bool) (conf : List (String × String)) :
    (conf = [] → (mergeSecrets env dev conf).lines.head? = some "[secrets]\n") ∧
    (conf ≠ [] →
      "[secrets]\n" ∉ (mergeSecrets env dev conf).lines ∧
      ∀ l ∈ (mergeSecrets env dev conf).lines, ∃ n v, l = n ++ " = " ++ v ++ "\n") := by
  obtain ⟨added, hconf, hlines, _, _, _⟩ := mergeSecrets_spec env dev conf
  constructor
  · intro he
    rw [hlines, he]
    rfl
  · intro hne
    have hlen : ¬ conf.length = 0 := fun hz => hne (List.length_eq_zero.mp hz)
    rw [hlines, if_neg hlen, List.nil_append]
    constructor
    · intro hmem
      obtain ⟨p, _, hp⟩ := List.mem_map.mp hmem
      have hin : '=' ∈ (fmtLine p).data := by
        unfold fmtLine
        rw [String.data_append, String.data_append, String.data_append]
        exact List.mem_append_left _ (List.mem_append_left _
          (List.mem_append_right _ (by decide)))
      rw [hp] at hin
      revert hin
      decide
    · intro l hl
      obtain ⟨p, _, hp⟩ := List.mem_map.mp hl
      exact ⟨p.1, p.2, hp.symm⟩

/-- C6: swallowed queue-connection failure — in production mode with the queue
host configured as loopback, `redis_password` absent, and the live
`config_set` call failing with `ConnectionError` (`redisConnOk = false`), the
error is swallowed: the run still returns a result (no exception escapes), the
failed call is recorded, the generated password is in the mapping and in the
pending lines, and the line is persisted via the file append. -/
theorem redis_swallow_c6 (env : Env) (f0 : Option String)
    (conf : List (String × String)) (h : get_old_conf f0 = some conf)
    (habs : confLookup conf "redis_password" = none)
    (hhost : env.settings.REDIS_HOST = "127.0.0.1")
    (hfail : env.redisConnOk = false) :
    (mergeSecrets env false conf).redisSetOk = some false ∧
    (confLookup (mergeSecrets env false conf).conf "redis_password").isSome = true ∧
    ("redis_password = " ++
        ((confLookup (mergeSecrets env false conf).conf "redis_password").getD "") ++ "\n") ∈
      (mergeSecrets env false conf).lines ∧
    generate_secrets env false f0 =
      some ⟨some (contentOf f0 ++ "\n" ++ String.join (mergeSecrets env false conf).lines),
        mergeSecrets env false conf, true,
        "Generated new secrets in /etc/zulip/zulip-secrets.conf."⟩ := by
  have hsplit : secretSteps =
      [⟨"avatar_salt", .always, .token⟩,
       ⟨"rabbitmq_password", .always, .token⟩,
       ⟨"shared_secret", .always, .token⟩,
       ⟨"thumbor_key", .always, .token⟩,
       ⟨"initial_password_salt", .devOnly, .token⟩,
       ⟨"local_database_password", .devOnly, .token⟩,
       ⟨"secret_key", .always, .djangoKey⟩,
       ⟨"camo_key", .always, .str64⟩,
       ⟨"memcached_password", .prodMemcached, .token⟩] ++
      (⟨"redis_password", .prodRedis, .token⟩ ::
       [⟨"zulip_org_key", .always, .str64⟩,
        ⟨"zulip_org_id", .always, .uuidGen⟩,
        ⟨"postgres_password", .always, .envPostgres⟩]) := rfl
  obtain ⟨addedA, hconfA, hlinesA, _, _, hsrcA⟩ :=
    runSteps_spec env false
      [⟨"avatar_salt", .always, .token⟩,
       ⟨"rabbitmq_password", .always, .token⟩,
       ⟨"shared_secret", .always, .token⟩,
       ⟨"thumbor_key", .always, .token⟩,
       ⟨"initial_password_salt", .devOnly, .token⟩,
       ⟨"local_database_password", .devOnly, .token⟩,
       ⟨"secret_key", .always, .djangoKey⟩,
       ⟨"camo_key", .always, .str64⟩,
       ⟨"memcached_password", .prodMemcached, .token⟩] (initState conf)
  set sPre := List.foldl (runStep env false) (initState conf)
      [⟨"avatar_salt", .always, .token⟩,
       ⟨"rabbitmq_password", .always, .token⟩,
       ⟨"shared_secret", .always, .token⟩,
       ⟨"thumbor_key", .always, .token⟩,
       ⟨"initial_password_salt", .devOnly, .token⟩,
       ⟨"local_database_password", .devOnly, .token⟩,
       ⟨"secret_key", .always, .djangoKey⟩,
       ⟨"camo_key", .always, .str64⟩,
       ⟨"memcached_password", .prodMemcached, .token⟩] with hsPre
  have hpre : confLookup sPre.conf "redis_password" = none := by
    rw [hconfA]
    apply confLookup_append_eq_none_iff.mpr
    refine ⟨habs, ?_⟩
    apply confLookup_eq_none_iff.mpr
    intro p hp he
    obtain ⟨st, hst, hname, _, _⟩ := hsrcA p hp
    rw [he] at hname
    fin_cases hst <;> exact absurd hname (by decide)
  have hfire : (need_secret sPre.conf
      (⟨"redis_password", .prodRedis, .token⟩ : Step).name &&
      applies (⟨"redis_password", .prodRedis, .token⟩ : Step).app env false) = true := by
    unfold need_secret
    rw [hpre]
    simp [applies, hhost]
  have hmerge : mergeSecrets env false conf =
      List.foldl (runStep env false)
        (runStep env false sPre ⟨"redis_password", .prodRedis, .token⟩)
        [⟨"zulip_org_key", .always, .str64⟩,
         ⟨"zulip_org_id", .always, .uuidGen⟩,
         ⟨"postgres_password", .always, .envPostgres⟩] := by
    unfold mergeSecrets
    rw [hsplit, List.foldl_append, List.foldl_cons]
  set sMid := runStep env false sPre ⟨"redis_password", .prodRedis, .token⟩ with hsMid
  set tokenV := (genValue env sPre Gen.token).1 with htok
  have hMidConf : sMid.conf = sPre.conf ++ [("redis_password", tokenV)] := by
    rw [hsMid, runStep_conf_of_fire hfire]
  have hMidLines : sMid.lines = sPre.lines ++ [fmtLine ("redis_password", tokenV)] := by
    rw [hsMid, runStep_lines_of_fire hfire]
  have hMidSet : sMid.redisSetOk = some false := by
    rw [hsMid, runStep_fire hfire, add_secret_redisSetOk,
      applyEffects_redisSetOk_of_redis _ _ _ _ rfl, hfail]
  obtain ⟨addedB, hconfB, hlinesB, _, _, hsrcB⟩ :=
    runSteps_spec env false
      [⟨"zulip_org_key", .always, .str64⟩,
       ⟨"zulip_org_id", .always, .uuidGen⟩,
       ⟨"postgres_password", .always, .envPostgres⟩] sMid
  have hlook : confLookup (mergeSecrets env false conf).conf "redis_password" = some tokenV := by
    rw [hmerge, hconfB, hMidConf]
    rw [List.append_assoc, confLookup_append_right _ hpre]
    rfl
  have hset : (mergeSecrets env false conf).redisSetOk = some false := by
    rw [hmerge]
    rw [runSteps_redisSetOk env false _ sMid (by
      intro st hst
      fin_cases hst <;> simp)]
    exact hMidSet
  have hline : ("redis_password = " ++ tokenV ++ "\n") ∈ (mergeSecrets env false conf).lines := by
    rw [hmerge, hlinesB, hMidLines]
    apply List.mem_append_left
    apply List.mem_append_right
    rw [show ("redis_password = " ++ tokenV ++ "\n") = fmtLine ("redis_password", tokenV) by
      unfold fmtLine
      rw [String.append_assoc]
      rfl]
    exact List.mem_singleton.mpr rfl
  have hlines_ne : ¬ (mergeSecrets env false conf).lines.length = 0 := by
    intro hz
    have := List.length_eq_zero.mp hz
    rw [this] at hline
    exact absurd hline (List.not_mem_nil _)
  refine ⟨hset, by rw [hlook]; rfl, ?_, ?_⟩
  · rw [hlook]
    simpa using hline
  · rw [generate_secrets_eq env false f0 conf h, if_neg hlines_ne]
    rfl

/-- C8: config loader contract — an absent file or an empty file yields the
empty mapping; otherwise the loader returns exactly what the parser produces
for the `secrets` section, and a parse failure on a malformed non-empty file
propagates as a fatal failure of the whole run. -/
theorem config_loader_c8 :
    get_old_conf none = some [] ∧
    get_old_conf (some "") = some [] ∧
    (∀ c : String, c ≠ "" → get_old_conf (some c) = parseSecretsFile c) ∧
    (∀ (env : Env) (dev : Bool) (c : String), c ≠ "" → parseSecretsFile c = none →
      generate_secrets env dev (some c) = none) := by
  refine ⟨rfl, rfl, ?_, ?_⟩
  · intro c hc
    show (if c = "" then some [] else parseSecretsFile c) = parseSecretsFile c
    rw [if_neg hc]
  · intro env dev c hc hp
    have hg : get_old_conf (some c) = none := by
      show (if c = "" then some [] else parseSecretsFile c) = none
      rw [if_neg hc, hp]
    unfold generate_secrets
    rw [hg]

theorem getD_mem_of_lt {l : List Char} {i : Nat} (h : i < l.length) (d : Char) :
    l.getD i d ∈ l := by
  induction l generalizing i with
  | nil => simp at h
  | cons a t ih =>
    cases i with
    | zero => simp
    | succ j =>
      simp only [List.getD_cons_succ]
      exact List.mem_cons_of_mem _ (ih (by simpa using h))

theorem hexDigit_mem (n : Nat) : hexDigit n ∈ hexChars := by
  unfold hexDigit
  exact getD_mem_of_lt (Nat.mod_lt _ (by decide)) '0'

theorem hexDigit_ne_dash (n : Nat) : ¬ hexDigit n = '-' := by
  intro he
  have := hexDigit_mem n
  rw [he] at this
  revert this
  decide

/-- C9: generated value shape — every token-generator output is a 64-character
string of lowercase hexadecimal digits; the Django secret key is exactly 50
characters drawn from the restricted `secret_chars` alphabet; and the
installation id produced by the UUID generator is a canonically formatted
(8-4-4-4-12 hexadecimal) UUID string. -/
theorem value_shapes_c9 :
    (∀ u : Nat → Nat, (random_token u).length = 64 ∧
      (random_token u).data.all (fun c => hexChars.contains c) = true) ∧
    (∀ p : Nat → Nat, (generate_django_secretkey p).length = 50 ∧
      (generate_django_secretkey p).data.all (fun c => secret_chars.contains c) = true) ∧
    (∀ nib : Nat → Nat, isValidUUID (uuid4_model nib) = true) := by
  refine ⟨?_, ?_, ?_⟩
  · intro u
    constructor
    · show (String.mk _).length = 64
      rw [String.length_mk, List.length_flatten, List.map_map]
      rw [show (List.length ∘ fun i => byteHex (u i % 256)) = fun _ => (2 : Nat) from
        funext (fun i => rfl)]
      rw [List.map_const', List.length_range, List.sum_replicate]
      rfl
    · rw [List.all_eq_true]
      intro c hc
      rw [show (random_token u).data =
          ((List.range 32).map (fun i => byteHex (u i % 256))).flatten from rfl] at hc
      obtain ⟨sub, hsub, hcs⟩ := List.mem_flatten.mp hc
      obtain ⟨i, _, hi⟩ := List.mem_map.mp hsub
      rw [← hi] at hcs
      rcases List.mem_cons.mp hcs with he | he
      · rw [he]; exact List.elem_eq_true_of_mem (hexDigit_mem _)
      · rcases List.mem_cons.mp he with he2 | he2
        · rw [he2]; exact List.elem_eq_true_of_mem (hexDigit_mem _)
        · simp at he2
  · intro p
    constructor
    · show (String.mk _).length = 50
      rw [String.length_mk, List.length_map, List.length_range]
    · rw [List.all_eq_true]
      intro c hc
      rw [show (generate_django_secretkey p).data =
          (List.range 50).map (fun i => secret_chars.getD (p i % secret_chars.length) '0')
          from rfl] at hc
      obtain ⟨i, _, hi⟩ := List.mem_map.mp hc
      rw [← hi]
      refine List.elem_eq_true_of_mem (getD_mem_of_lt (Nat.mod_lt _ ?_) '0')
      decide
  · intro nib
    unfold isValidUUID uuid4_model
    have hgrp : ∀ s l : Nat, ∀ c ∈ (List.range l).map (fun j => hexDigit (nib (s + j))),
        ¬ c = '-' := by
      intro s l c hc
      obtain ⟨j, _, hj⟩ := List.mem_map.mp hc
      rw [← hj]
      exact hexDigit_ne_dash _
    have hsplit : splitOnChar '-' (String.mk
        ((List.range 8).map (fun j => hexDigit (nib (0 + j))) ++ '-' ::
          ((List.range 4).map (fun j => hexDigit (nib (8 + j))) ++ '-' ::
            ('4' :: (List.range 3).map (fun j => hexDigit (nib (13 + j))) ++ '-' ::
              (hexDigit (8 + nib 16 % 4) :: (List.range 3).map (fun j => hexDigit (nib (17 + j))) ++ '-' ::
                (List.range 12).map (fun j => hexDigit (nib (20 + j)))))))).data =
        [(List.range 8).map (fun j => hexDigit (nib (0 + j))),
         (List.range 4).map (fun j => hexDigit (nib (8 + j))),
         '4' :: (List.range 3).map (fun j => hexDigit (nib (13 + j))),
         hexDigit (8 + nib 16 % 4) :: (List.range 3).map (fun j => hexDigit (nib (17 + j))),
         (List.range 12).map (fun j => hexDigit (nib (20 + j)))] := by
      rw [show (String.mk
        ((List.range 8).map (fun j => hexDigit (nib (0 + j))) ++ '-' ::
          ((List.range 4).map (fun j => hexDigit (nib (8 + j))) ++ '-' ::
            ('4' :: (List.range 3).map (fun j => hexDigit (nib (13 + j))) ++ '-' ::
              (hexDigit (8 + nib 16 % 4) :: (List.range 3).map (fun j => hexDigit (nib (17 + j))) ++ '-' ::
                (List.range 12).map (fun j => hexDigit (nib (20 + j)))))))).data =
        (List.range 8).map (fun j => hexDigit (nib (0 + j))) ++ '-' ::
          ((List.range 4).map (fun j => hexDigit (nib (8 + j))) ++ '-' ::
            (('4' :: (List.range 3).map (fun j => hexDigit (nib (13 + j)))) ++ '-' ::
              ((hexDigit (8 + nib 16 % 4) :: (List.range 3).map (fun j => hexDigit (nib (17 + j)))) ++ '-' ::
                (List.range 12).map (fun j => hexDigit (nib (20 + j)))))) from rfl]
      rw [splitOnChar_append, splitOnChar_append, splitOnChar_append, splitOnChar_append]
      rw [splitOnChar_of_no_sep (hgrp 0 8),
        splitOnChar_of_no_sep (hgrp 8 4),
        splitOnChar_of_no_sep (by
          intro c hc
          rcases List.mem_cons.mp hc with he | he
          · rw [he]; decide
          · exact hgrp 13 3 c he),
        splitOnChar_of_no_sep (by
          intro c hc
          rcases List.mem_cons.mp hc with he | he
          · rw [he]; exact hexDigit_ne_dash _
          · exact hgrp 17 3 c he),
        splitOnChar_of_no_sep (hgrp 20 12)]
      rfl
    rw [hsplit]
    rw [Bool.and_eq_true]
    constructor
    · apply decide_eq_true
      simp [List.length_map, List.length_range]
    · rw [List.all_eq_true]
      intro part hpart
      rw [List.all_eq_true]
      intro c hc
      have hmem : c ∈ hexChars ∨ c = '4' := by
        rcases List.mem_cons.mp hpart with he | hrest
        · rw [he] at hc
          obtain ⟨j, _, hj⟩ := List.mem_map.mp hc
          exact Or.inl (hj ▸ hexDigit_mem _)
        · rcases List.mem_cons.mp hrest with he | hrest
          · rw [he] at hc
            obtain ⟨j, _, hj⟩ := List.mem_map.mp hc
            exact Or.inl (hj ▸ hexDigit_mem _)
          · rcases List.mem_cons.mp hrest with he | hrest
            · rw [he] at hc
              rcases List.mem_cons.mp hc with he2 | he2
              · exact Or.inr he2
              · obtain ⟨j, _, hj⟩ := List.mem_map.mp he2
                exact Or.inl (hj ▸ hexDigit_mem _)
            · rcases List.mem_cons.mp hrest with he | hrest
              · rw [he] at hc
                rcases List.mem_cons.mp hc with he2 | he2
                · rw [he2]; exact Or.inl (hexDigit_mem _)
                · obtain ⟨j, _, hj⟩ := List.mem_map.mp he2
                  exact Or.inl (hj ▸ hexDigit_mem _)
              · rcases List.mem_cons.mp hrest with he | hrest
                · rw [he] at hc
                  obtain ⟨j, _, hj⟩ := List.mem_map.mp hc
                  exact Or.inl (hj ▸ hexDigit_mem _)
                · simp at hrest
      rcases hmem with hm | hm
      · exact List.elem_eq_true_of_mem hm
      · rw [hm]; decide

theorem get_old_conf_of_ne {c : String} (hc : ¬ c = "") :
    get_old_conf (some c) = parseSecretsFile c := by
  show (if c = "" then some [] else parseSecretsFile c) = parseSecretsFile c
  rw [if_neg hc]

/-- C1 (amended): idempotence on admissible starting files — if the starting
secrets file is absent, empty, or parses to a non-empty mapping, and the
generated values are newline-free (true of the real generators), then a second
run in the same mode against the same settings, started on the file the first
run produced, succeeds, generates an empty pending set, performs no write,
reports "No new secrets to generate", and leaves the file content exactly as
it was after the first run. -/
theorem idempotence_c1 (env1 env2 : Env) (dev : Bool) (f0 : Option String)
    (res1 : RunResult)
    (hwf : EnvWF env1)
    (hss : sameSettings env1 env2)
    (hok : okStart f0)
    (hrun1 : generate_secrets env1 dev f0 = some res1) :
    (generate_secrets env2 dev res1.file).map
      (fun r => (r.file, r.wrote, r.state.lines, r.message)) =
      some (res1.file, false, ([] : List String),
        "generate_secrets: No new secrets to generate.") := by
  have hfinal : ∀ (f1 : Option String) (conf1 : List (String × String)),
      get_old_conf f1 = some conf1 →
      (∀ st ∈ secretSteps, applies st.app env2 dev = true →
        (confLookup conf1 st.name).isSome = true) →
      ¬ conf1.length = 0 →
      (generate_secrets env2 dev f1).map
        (fun r => (r.file, r.wrote, r.state.lines, r.message)) =
        some (f1, false, ([] : List String),
          "generate_secrets: No new secrets to generate.") := by
    intro f1 conf1 hget hp hlen1
    rw [generate_secrets_eq env2 dev f1 conf1 hget, merge_noop env2 dev conf1 hp]
    rw [if_pos (by
      show (if conf1.length = 0 then ["[secrets]\n"] else ([] : List String)).length = 0
      rw [if_neg hlen1]
      rfl)]
    rw [Option.map_some']
    show some (f1, false,
      (if conf1.length = 0 then ["[secrets]\n"] else ([] : List String)), _) = _
    rw [if_neg hlen1]
  cases hconf0 : get_old_conf f0 with
  | none =>
    unfold generate_secrets at hrun1
    rw [hconf0] at hrun1
    simp at hrun1
  | some conf0 =>
    rw [generate_secrets_eq env1 dev f0 conf0 hconf0] at hrun1
    obtain ⟨added, hconf, hlines, hfresh, hnd, hsrc⟩ := mergeSecrets_spec env1 dev conf0
    have hgood : ∀ p ∈ added, goodNameS p.1 = true := by
      intro p hp
      obtain ⟨st, hst, hname, _, _⟩ := hsrc p hp
      rw [← hname]
      exact stepsNamesGood st hst
    have hnl : ∀ p ∈ added, noNlB p.2 = true := by
      intro p hp
      obtain ⟨st, hst, _, _, hv⟩ := hsrc p hp
      exact envValueFor_noNl hwf hv
    have hpresent : ∀ st ∈ secretSteps, applies st.app env2 dev = true →
        (confLookup (mergeSecrets env1 dev conf0).conf st.name).isSome = true := by
      intro st hst ha2
      exact merge_guarded_present env1 dev conf0 hst
        (by rw [applies_congr hss]; exact ha2)
    by_cases hempty : (mergeSecrets env1 dev conf0).lines.length = 0
    · rw [if_pos hempty] at hrun1
      have hres := Option.some.inj hrun1
      have hlines0 : (mergeSecrets env1 dev conf0).lines = [] :=
        List.length_eq_zero.mp hempty
      rw [hlines] at hlines0
      obtain ⟨hinit0, hmap0⟩ := List.append_eq_nil.mp hlines0
      have hlen : ¬ conf0.length = 0 := by
        intro hz
        rw [if_pos hz] at hinit0
        simp at hinit0
      have hadded : added = [] := List.map_eq_nil_iff.mp hmap0
      have hpres0 : ∀ st ∈ secretSteps, applies st.app env2 dev = true →
          (confLookup conf0 st.name).isSome = true := by
        intro st hst ha
        have hx := hpresent st hst ha
        rw [hconf, hadded, List.append_nil] at hx
        exact hx
      rw [← hres]
      exact hfinal f0 conf0 hconf0 hpres0 hlen
    · rw [if_neg hempty] at hrun1
      have hres := Option.some.inj hrun1
      have hposgt : (⟨"postgres_password", .always, .envPostgres⟩ : Step) ∈ secretSteps := by
        rw [secretSteps_eq]
        simp
      by_cases hC : conf0 = []
      · -- the starting file was absent or empty: the run prepended the header
        have hcontent : contentOf f0 = "" := by
          rcases hok with hf | hf | ⟨conf', hconf', hne⟩
          · rw [hf]; rfl
          · rw [hf]; rfl
          · rw [hconf0] at hconf'
            exact absurd (hC ▸ (Option.some.inj hconf').symm) hne
        have hlines1 : (mergeSecrets env1 dev conf0).lines =
            "[secrets]\n" :: added.map fmtLine := by
          rw [hlines, hC]
          rfl
        have hparse1 : parseSecretsFile (contentOf f0 ++ "\n" ++
            String.join (mergeSecrets env1 dev conf0).lines) =
            some (added.map trimPair) := by
          rw [hcontent, hlines1]
          exact parse_header_block added hgood hnl hnd
        have hfne : ¬ (contentOf f0 ++ "\n" ++
            String.join (mergeSecrets env1 dev conf0).lines) = "" := by
          intro he
          have hd := congrArg String.data he
          rw [String.data_append, String.data_append] at hd
          simp at hd
        have hget1 : get_old_conf (some (contentOf f0 ++ "\n" ++
            String.join (mergeSecrets env1 dev conf0).lines)) =
            some (added.map trimPair) := by
          rw [get_old_conf_of_ne hfne, hparse1]
        have hp1 : ∀ st ∈ secretSteps, applies st.app env2 dev = true →
            (confLookup (added.map trimPair) st.name).isSome = true := by
          intro st hst ha
          have hx := hpresent st hst ha
          rw [hconf, hC, List.nil_append] at hx
          rw [confLookup_isSome_congr (map_fst_trimPair added)]
          exact hx
        have hlen1 : ¬ (added.map trimPair).length = 0 := by
          intro hz
          have hz' := List.length_eq_zero.mp hz
          have hx := hp1 ⟨"postgres_password", .always, .envPostgres⟩ hposgt rfl
          rw [hz'] at hx
          simp [confLookup] at hx
        rw [← hres]
        exact hfinal _ _ hget1 hp1 hlen1
      · -- the starting file parsed to a non-empty mapping: bare append
        have hlen0 : ¬ conf0.length = 0 := fun hz => hC (List.length_eq_zero.mp hz)
        obtain ⟨c0, hf0⟩ : ∃ c0, f0 = some c0 := by
          cases hf : f0 with
          | none =>
            rw [hf] at hconf0
            exact absurd (Option.some.inj hconf0) (fun he => hC he.symm)
          | some c0 => exact ⟨c0, rfl⟩
        have hc0ne : ¬ c0 = "" := by
          intro he
          rw [hf0, he] at hconf0
          exact hC (Option.some.inj hconf0).symm
        have hparse0 : parseSecretsFile c0 = some conf0 := by
          rw [hf0] at hconf0
          have : (if c0 = "" then some [] else parseSecretsFile c0) = some conf0 := hconf0
          rw [if_neg hc0ne] at this
          exact this
        have hlines1 : (mergeSecrets env1 dev conf0).lines = added.map fmtLine := by
          rw [hlines, if_neg hlen0, List.nil_append]
        have hparse1 : parseSecretsFile (contentOf f0 ++ "\n" ++
            String.join (mergeSecrets env1 dev conf0).lines) =
            some (conf0 ++ added.map trimPair) := by
          rw [hf0, hlines1]
          exact parse_append c0 conf0 added hparse0 hgood hnl hfresh hnd
        have hfne : ¬ (contentOf f0 ++ "\n" ++
            String.join (mergeSecrets env1 dev conf0).lines) = "" := by
          intro he
          have hd := congrArg String.data he
          rw [String.data_append, String.data_append] at hd
          simp at hd
        have hget1 : get_old_conf (some (contentOf f0 ++ "\n" ++
            String.join (mergeSecrets env1 dev conf0).lines)) =
            some (conf0 ++ added.map trimPair) := by
          rw [get_old_conf_of_ne hfne, hparse1]
        have hp1 : ∀ st ∈ secretSteps, applies st.app env2 dev = true →
            (confLookup (conf0 ++ added.map trimPair) st.name).isSome = true := by
          intro st hst ha
          have hx := hpresent st hst ha
          rw [hconf] at hx
          rw [@confLookup_isSome_congr (conf0 ++ added.map trimPair) (conf0 ++ added)
            (by rw [List.map_append, List.map_append, map_fst_trimPair]) st.name]
          exact hx
        have hlen1 : ¬ (conf0 ++ added.map trimPair).length = 0 := by
          intro hz
          rw [List.length_append] at hz
          have : conf0.length = 0 := by omega
          exact hlen0 this
        rw [← hres]
        exact hfinal _ _ hget1 hp1 hlen1

set_option maxRecDepth 100000

theorem envA_wf : EnvWF envA := by
  refine ⟨fun i => by show noNlB "tok" = true; decide,
    fun i => by show noNlB "str" = true; decide, by decide, by decide, ?_⟩
  intro s hs
  rw [show envA.REMOTE_POSTGRES_PASSWORD = some "pgpass" from rfl] at hs
  injection hs with h
  rw [← h]
  decide

/-- C1 counterexample: against the starting file `"[secrets]\n"` — non-empty
but parsing to an empty mapping — the first development-mode run succeeds and
changes the file (it appends a second `[secrets]` header), and the second run
fails with a duplicate-section parse error instead of producing an empty
pending set. -/
theorem idempotence_c1_counterexample :
    (generate_secrets envA true (some "[secrets]\n")).isSome = true ∧
    ¬ c1file1 = some "[secrets]\n" ∧
    generate_secrets envA true c1file1 = none := by
  refine ⟨by decide, by decide, by decide⟩

theorem idempotence_c1_witness :
    (generate_secrets envA true c1wfile).map
      (fun r => (r.file, r.wrote, r.state.lines, r.message)) =
      some (c1wfile, false, ([] : List String),
        "generate_secrets: No new secrets to generate.") := by
  cases hE : generate_secrets envA true none with
  | none => exact absurd hE (by decide)
  | some r1 =>
    have hmain := idempotence_c1 envA envA true none r1 envA_wf ⟨rfl, rfl⟩
      (Or.inl rfl) hE
    have hfile : c1wfile = r1.file := by
      unfold c1wfile
      rw [hE]
    rw [hfile]
    exact hmain

theorem preservation_c2_witness :
    confLookup (mergeSecrets envA true [("foo", "bar")]).conf "foo" = some "bar" ∧
    (generate_secrets envA true (some "[secrets]\nfoo = bar\n")).map
      (fun r => contentOf r.file) =
      some (contentOf (some "[secrets]\nfoo = bar\n") ++
        (if (mergeSecrets envA true [("foo", "bar")]).lines.length = 0 then ""
         else "\n" ++ String.join (mergeSecrets envA true [("foo", "bar")]).lines)) :=
  preservation_c2 envA true (some "[secrets]\nfoo = bar\n") [("foo", "bar")]
    "foo" "bar" (by decide) (by decide)

theorem conditional_generation_c4_witness :
    ((confLookup (mergeSecrets envA false []).conf "memcached_password").isSome = true ↔
      envA.settings.MEMCACHED_LOCATION = "127.0.0.1:11211") ∧
    ((confLookup (mergeSecrets envA false []).conf "redis_password").isSome = true ↔
      envA.settings.REDIS_HOST = "127.0.0.1") :=
  conditional_generation_c4 envA [] rfl rfl

theorem noop_frame_c5_witness :
    generate_secrets envA true none =
      some ⟨some (contentOf none ++ "\n" ++ String.join (mergeSecrets envA true []).lines),
        mergeSecrets envA true [], true,
        "Generated new secrets in " ++ OUTPUT_SETTINGS_FILENAME true ++ "."⟩ :=
  (noop_frame_c5 envA true none [] rfl).2 (by decide)

theorem redis_swallow_c6_witness :
    (mergeSecrets envA false []).redisSetOk = some false ∧
    (confLookup (mergeSecrets envA false []).conf "redis_password").isSome = true ∧
    ("redis_password = " ++
        ((confLookup (mergeSecrets envA false []).conf "redis_password").getD "") ++ "\n") ∈
      (mergeSecrets envA false []).lines ∧
    generate_secrets envA false none =
      some ⟨some (contentOf none ++ "\n" ++ String.join (mergeSecrets envA false []).lines),
        mergeSecrets envA false [], true,
        "Generated new secrets in /etc/zulip/zulip-secrets.conf."⟩ :=
  redis_swallow_c6 envA none [] rfl rfl rfl rfl

theorem postgres_password_c7_witness :
    confLookup (mergeSecrets envA true []).conf "postgres_password" =
      some (pyOptStr envA.REMOTE_POSTGRES_PASSWORD) ∧
    (envA.REMOTE_POSTGRES_PASSWORD = none →
      confLookup (mergeSecrets envA true []).conf "postgres_password" = some "None") ∧
    (generate_secrets envA true none).isSome = true :=
  postgres_password_c7 envA true none [] rfl rfl

theorem config_loader_c8_witness :
    get_old_conf (some "junk") = parseSecretsFile "junk" ∧
    generate_secrets envA true (some "junk") = none :=
  ⟨config_loader_c8.2.2.1 "junk" (by decide),
   config_loader_c8.2.2.2 envA true "junk" (by decide) (by decide)⟩

theorem header_emission_c10_witness :
    (mergeSecrets envA true []).lines.head? = some "[secrets]\n" :=
  (header_emission_c10 envA true []).1 rfl
